import Mathlib

/-!
Verification of the parallaxWorld simulation kernel against its code.

The Python sources (src/world/...) are shallowly embedded here:

* Python `dict` (insertion-ordered, unique string keys) is embedded as an
  association list `Dict α := List (String × α)` with `dGet` (lookup),
  `dSet` (insert-or-replace in place, `d[k] = v`) and `dPop`
  (`d.pop(k, None)`).
* Python `float` values are idealized as rationals `ℚ`; Python `int` as `Int`
  (arbitrary precision in Python, no overflow).
* Fallible or external operations (the HTTP text generator) are embedded by
  passing the outcome of the external call as an explicit argument.

All definitions are computable so that every statement can be evaluated on
concrete inputs.
-/

/-- Embedding of a Python `dict` with string keys: an insertion-ordered
association list. -/
abbrev Dict (α : Type) := List (String × α)

/-- Embedding of `d.get(k)` / `d[k]`: first (unique) binding of the key. -/
def dGet {α : Type} (m : Dict α) (k : String) : Option α :=
  match m with
  | [] => none
  | (k2, v) :: rest => if k2 = k then some v else dGet rest k

/-- Embedding of `d[k] = v`: replace the binding in place when the key is
present (Python dicts keep the original insertion position), append
otherwise. -/
def dSet {α : Type} (m : Dict α) (k : String) (v : α) : Dict α :=
  match m with
  | [] => [(k, v)]
  | (k2, v2) :: rest => if k2 = k then (k2, v) :: rest else (k2, v2) :: dSet rest k v

/-- Embedding of `d.pop(k, None)`: drop the binding of the key, if any. -/
def dPop {α : Type} (m : Dict α) (k : String) : Dict α :=
  match m with
  | [] => []
  | (k2, v2) :: rest => if k2 = k then rest else (k2, v2) :: dPop rest k

/-- Key list of a dict (`list(d.keys())`). -/
def dKeys {α : Type} (m : Dict α) : List String := m.map Prod.fst

/-! ## Data model (src/world/core/state.py) -/

/-- Python slice `l[-n:]` (used as `ids[-self.memory_limit:]` and
`memory_ids[-limit:]`): the last `n` elements for `n > 0`, and the whole
list for `n = 0` (Python treats `l[-0:]` as `l[0:]`). -/
def sliceLast {α : Type} (l : List α) (n : Nat) : List α :=
  if n = 0 then l else l.drop (l.length - n)

/-- Embedding of `state.Memory`. Floats are idealized as rationals. -/
structure Memory where
  id : String
  owner_id : String
  summary : String
  salience : ℚ := 1
  tags : List String := []
  created_at : Int := 0
  decay_rate : ℚ := 1 / 100
  deriving Repr, DecidableEq

/-- Embedding of `state.Location`. -/
structure Location where
  id : String
  name : String
  kind : String := "generic"
  connections : List String := []
  tags : List String := []
  deriving Repr, DecidableEq

/-- Embedding of `state.Character`. -/
structure Character where
  id : String
  name : String
  age : Int
  role : String
  language : String := "zh-CN"
  comprehension : Dict ℚ := []
  attributes : Dict ℚ := []
  traits : Dict ℚ := []
  states : Dict ℚ := []
  relationships : Dict ℚ := []
  memory_ids : List String := []
  goals : List String := []
  flags : Dict Bool := []
  location_id : Option String := none
  deriving Repr, DecidableEq

/-- Embedding of `state.Event`.  The free-form `payload` dict is restricted
to the single `"incident"` entry the kernel reads and writes; effects are
the `{target, field, delta|set}` dicts of `FateEngine._apply_effects`,
embedded as a structure whose `Option` fields model absent dict keys. -/
structure Effect where
  target : Option String := none
  field : Option String := none
  delta : Option ℚ := none
  set : Option ℚ := none
  deriving Repr, DecidableEq

structure Event where
  id : String
  type : String
  created_at : Int
  scheduled_for : Int
  location_id : Option String := none
  actors : List String := []
  origin : String := "system"
  status : String := "scheduled"
  effects : List Effect := []
  deriving Repr, DecidableEq

/-- Embedding of `state.World` (the `logs` list, which no claim touches, is
omitted; timelines are kept by the store, see the timeline section). -/
structure World where
  id : String
  name : String
  background : String
  epoch : Int := 0
  time_scale : ℚ := 1
  default_language : String := "zh-CN"
  force_default_language : Bool := true
  locations : Dict Location := []
  characters : Dict Character := []
  memories : Dict Memory := []
  events : Dict Event := []
  deriving Repr, DecidableEq

/-- Embedding of `state.WorldStore` (`storage_dir` and the on-disk log sink
are external collaborators and omitted). -/
structure WorldStore where
  world : World
  memory_limit : Nat := 100
  memory_summary_every_n : Nat := 5
  memory_summary_max_items : Nat := 5
  memory_event_count : Dict Nat := []
  deriving Repr, DecidableEq

/-- Embedding of `WorldStore.add_memory` (state.py lines 95-107): insert the
memory into the world map; when the owner exists, append the ID to the
owner's list, bump the unsummarized-event count, and evict the oldest IDs
from both the list (`ids[-limit:]`) and the map (`pop`) when the list
exceeds `memory_limit`. -/
def WorldStore.add_memory (s : WorldStore) (m : Memory) : WorldStore :=
  let mems := dSet s.world.memories m.id m
  match dGet s.world.characters m.owner_id with
  | none => { s with world := { s.world with memories := mems } }
  | some ch =>
    let ids := ch.memory_ids ++ [m.id]
    let cnt := dSet s.memory_event_count m.owner_id
      ((dGet s.memory_event_count m.owner_id).getD 0 + 1)
    if ids.length > s.memory_limit then
      let dropped := ids.take (ids.length - s.memory_limit)
      let kept := sliceLast ids s.memory_limit
      { s with
        world := { s.world with
          memories := dropped.foldl (fun mm mid => dPop mm mid) mems
          characters := dSet s.world.characters m.owner_id { ch with memory_ids := kept } }
        memory_event_count := cnt }
    else
      { s with
        world := { s.world with
          memories := mems
          characters := dSet s.world.characters m.owner_id { ch with memory_ids := ids } }
        memory_event_count := cnt }

/-! ## Scene state machine (src/world/core/scene.py) -/

/-- Embedding of `scene.SceneTurn`; the capture-time `time.time()` stamp is
an explicit argument of `add_turn`. -/
structure SceneTurn where
  speaker : String
  utterance : String
  ts : ℚ := 0
  deriving Repr, DecidableEq

/-- Embedding of `scene.Scene`. -/
structure Scene where
  id : String
  title : String
  participants : List String
  location_id : Option String := none
  background_tags : List String := []
  max_turns : Nat := 6
  turns : List SceneTurn := []
  status : String := "active"
  deriving Repr, DecidableEq

/-- Embedding of `Scene.next_speaker` (scene.py lines 27-29):
`participants[len(turns) % len(participants)]`.  On an empty participant
list the Python code raises `ZeroDivisionError`; that is the `none` case
here (`len(turns) % 0 = len(turns)` is out of range). -/
def Scene.next_speaker (s : Scene) : Option String :=
  s.participants[s.turns.length % s.participants.length]?

/-- Embedding of `Scene.add_turn` (scene.py lines 31-34): append the turn,
then flip the status to `"completed"` once the turn count reaches
`max_turns`. -/
def Scene.add_turn (s : Scene) (speaker utterance : String) (ts : ℚ) : Scene :=
  let s2 := { s with turns := s.turns ++ [{ speaker := speaker, utterance := utterance, ts := ts }] }
  if s2.turns.length ≥ s2.max_turns then { s2 with status := "completed" } else s2

/-- One driver step of the caller loops in routes.py: speak via
`next_speaker`, then `add_turn`; no turn is taken on an empty participant
list. -/
def Scene.stepScene (s : Scene) (utterance : String) (ts : ℚ) : Scene :=
  match s.next_speaker with
  | some sp => s.add_turn sp utterance ts
  | none => s

/-- The concrete scenario of the C7 claim: participants `[A, B, C]`,
`max_turns = 4`, no turns yet. -/
def c7Scene : Scene :=
  { id := "s1", title := "t", participants := ["A", "B", "C"], max_turns := 4 }


/-- Concrete scene used by the C7 witness. -/
def c7w : Scene :=
  { id := "w", title := "w", participants := ["A", "B"], max_turns := 2,
    turns := [{ speaker := "A", utterance := "hi", ts := 0 }] }

/-- Concrete completed scene used by the C10 witness: the cap of 1 is
already reached. -/
def c10w : Scene :=
  { id := "w", title := "w", participants := ["A"], max_turns := 1,
    turns := [{ speaker := "A", utterance := "hi", ts := 0 }],
    status := "completed" }

/-! ## Fate engine: due-event queue (src/world/fate/engine.py) -/

/-- Embedding of `fate.FateEngine` restricted to the state the verified
operations touch: the store and the due-queue (`event_queue`), a dict from
event ID to event.  Rules and the generator client drive `on_tick` /
`process_due_events`, which no claim about the queue needs. -/
structure FateEngine where
  store : WorldStore
  event_queue : Dict Event := []
  deriving Repr, DecidableEq

/-- The due test of `pop_due_events`:
`ev.scheduled_for <= current_tick and ev.status == "scheduled"`. -/
def eventDue (current_tick : Int) (ev : Event) : Bool :=
  decide (ev.scheduled_for ≤ current_tick) && ev.status == "scheduled"

/-- Embedding of `FateEngine.pop_due_events` (engine.py lines 50-57): scan
the queue snapshot in order; every due scheduled event is flipped to
`"ready"`, removed from the queue (`pop(ev.id, None)`), and collected.  The
queue is keyed by event ID (`on_tick` inserts `event_queue[ev.id] = ev`),
so removing the due entries is the `filter` below.  The same Python `Event`
objects also sit in `world.events`, hence the in-place status flip is
mirrored into the world map for the entries present there. -/
def FateEngine.pop_due_events (e : FateEngine) (current_tick : Int) :
    FateEngine × List Event :=
  let due := (e.event_queue.filter (fun p => eventDue current_tick p.2)).map
    (fun p => { p.2 with status := "ready" })
  let queue := e.event_queue.filter (fun p => !(eventDue current_tick p.2))
  let events := due.foldl
    (fun evs ev => if (dGet evs ev.id).isSome then dSet evs ev.id ev else evs)
    e.store.world.events
  ({ e with
      event_queue := queue
      store := { e.store with world := { e.store.world with events := events } } },
   due)

/-- Repeated `pop_due_events` calls at the given ticks, collecting every
returned event in order. -/
def FateEngine.popMany (e : FateEngine) (ticks : List Int) : List Event :=
  match ticks with
  | [] => []
  | t :: rest =>
    let r := e.pop_due_events t
    r.2 ++ r.1.popMany rest

/-- Queue well-formedness maintained by `on_tick`: entries are keyed by
their event's ID, and keys are unique (a Python dict). -/
def FateEngine.QueueWF (e : FateEngine) : Prop :=
  (∀ p ∈ e.event_queue, p.1 = p.2.id) ∧ (dKeys e.event_queue).Nodup

/-! ## Fate engine: effect application (engine.py lines 94-136) -/

/-- Helper for `str.startswith`: does the second list start with the
first? -/
def strStartsWithAux : List Char → List Char → Bool
  | [], _ => true
  | _ :: _, [] => false
  | p :: ps, c :: cs => if p = c then strStartsWithAux ps cs else false

/-- Python `str.startswith`. -/
def strStartsWith (s p : String) : Bool := strStartsWithAux p.data s.data

/-- Helper for `field.split(":", 1)[1]`: the characters after the first
colon. -/
def afterColonAux : List Char → List Char
  | [] => []
  | c :: cs => if c = ':' then cs else afterColonAux cs

/-- Python `field.split(":", 1)[1]` for a field containing a colon (the
four prefix guards guarantee one): everything after the first colon. -/
def afterColon (f : String) : String := ⟨afterColonAux f.data⟩

/-- The before/after record appended to `applied` for observability. -/
structure AppliedRec where
  target : String
  field : String
  before : ℚ
  after : ℚ
  deriving Repr, DecidableEq

/-- The shared mutation tail of the effect loop (engine.py lines 128-133):
`before = container.get(key, 0.0)`; a present `delta` adds to it, else a
present `set` overwrites, else nothing changes;
`after = container.get(key, before)`.  Returns the container plus the
before/after pair. -/
def effApplyValue (container : Dict ℚ) (key : String) (delta setv : Option ℚ) :
    Dict ℚ × ℚ × ℚ :=
  let before := (dGet container key).getD 0
  let c2 := match delta with
    | some d => dSet container key (before + d)
    | none => match setv with
      | some v => dSet container key v
      | none => container
  (c2, before, (dGet c2 key).getD before)

/-- One iteration of the effect loop of `FateEngine._apply_effects`
(engine.py lines 97-134), acting on the store's character dict: skip
effects with a missing/empty target or field (`not target_id or not
field`) or an unknown target; otherwise dispatch on the field prefix
(`state:` / `trait:` / `rel:` / `attr:`, default `states` with the literal
field) and apply the delta/set. -/
def applyOneEffect (chars : Dict Character) (eff : Effect) :
    Dict Character × Option AppliedRec :=
  match eff.target, eff.field with
  | some target_id, some f =>
    if target_id = "" ∨ f = "" then (chars, none)
    else
      match dGet chars target_id with
      | none => (chars, none)
      | some ch =>
        if strStartsWith f "state:" then
          let r := effApplyValue ch.states (afterColon f) eff.delta eff.set
          (dSet chars target_id { ch with states := r.1 },
           some { target := target_id, field := f, before := r.2.1, after := r.2.2 })
        else if strStartsWith f "trait:" then
          let r := effApplyValue ch.traits (afterColon f) eff.delta eff.set
          (dSet chars target_id { ch with traits := r.1 },
           some { target := target_id, field := f, before := r.2.1, after := r.2.2 })
        else if strStartsWith f "rel:" then
          let r := effApplyValue ch.relationships (afterColon f) eff.delta eff.set
          (dSet chars target_id { ch with relationships := r.1 },
           some { target := target_id, field := f, before := r.2.1, after := r.2.2 })
        else if strStartsWith f "attr:" then
          let r := effApplyValue ch.attributes (afterColon f) eff.delta eff.set
          (dSet chars target_id { ch with attributes := r.1 },
           some { target := target_id, field := f, before := r.2.1, after := r.2.2 })
        else
          let r := effApplyValue ch.states f eff.delta eff.set
          (dSet chars target_id { ch with states := r.1 },
           some { target := target_id, field := f, before := r.2.1, after := r.2.2 })
  | _, _ => (chars, none)

/-- Embedding of `FateEngine._apply_effects`: fold the loop body over the
event's effects, collecting the applied records. -/
def apply_effects (chars : Dict Character) (ev : Event) :
    Dict Character × List AppliedRec :=
  ev.effects.foldl
    (fun acc eff =>
      let r := applyOneEffect acc.1 eff
      (r.1, match r.2 with
        | some rec2 => acc.2 ++ [rec2]
        | none => acc.2))
    (chars, [])

/-- Observer used to state C8: resolve the same container dispatch as
`applyOneEffect` and read the targeted key. -/
def readFieldVal (chars : Dict Character) (target_id f : String) : Option ℚ :=
  match dGet chars target_id with
  | none => none
  | some ch =>
    if strStartsWith f "state:" then dGet ch.states (afterColon f)
    else if strStartsWith f "trait:" then dGet ch.traits (afterColon f)
    else if strStartsWith f "rel:" then dGet ch.relationships (afterColon f)
    else if strStartsWith f "attr:" then dGet ch.attributes (afterColon f)
    else dGet ch.states f

/-! ## Fate engine: personality drift (engine.py lines 138-173) -/

/-- The fixed drift lookup (engine.py lines 144-149): event types
`random_encounter` and `morning_greeting` give `0.1`, `bad_luck` gives
`-0.05`, everything else `0`. -/
def driftDelta (eventType : String) : ℚ :=
  if eventType = "random_encounter" ∨ eventType = "morning_greeting" then 1 / 10
  else if eventType = "bad_luck" then -(1 / 20)
  else 0

/-- The per-pair record appended to `deltas` (flattened). -/
structure DriftRec where
  pair : String × String
  delta : ℚ
  before_ab : ℚ
  before_ba : ℚ
  after_ab : ℚ
  after_ba : ℚ
  deriving Repr, DecidableEq

/-- One iteration of the pair loop of `_apply_personality_drift`
(engine.py lines 155-172): skip when either actor is unknown; otherwise
read both directional scores, then write both incremented by the drift, in
Python statement order (the second write goes through the possibly
just-updated character object, which matters when `aid = bid`). -/
def driftPairStep (chars : Dict Character) (d : ℚ) (aid bid : String) :
    Dict Character × Option DriftRec :=
  match dGet chars aid, dGet chars bid with
  | some a, some b =>
    let before_ab := (dGet a.relationships bid).getD 0
    let before_ba := (dGet b.relationships aid).getD 0
    let chars1 := dSet chars aid
      { a with relationships := dSet a.relationships bid (before_ab + d) }
    let chars2 := match dGet chars1 bid with
      | some b1 => dSet chars1 bid
          { b1 with relationships := dSet b1.relationships aid (before_ba + d) }
      | none => chars1
    let after_ab := match dGet chars2 aid with
      | some a2 => (dGet a2.relationships bid).getD 0
      | none => 0
    let after_ba := match dGet chars2 bid with
      | some b2 => (dGet b2.relationships aid).getD 0
      | none => 0
    (chars2, some { pair := (aid, bid), delta := d, before_ab := before_ab,
                    before_ba := before_ba, after_ab := after_ab, after_ba := after_ba })
  | _, _ => (chars, none)

/-- The index-ordered actor pairs `(actors[i], actors[j])`, `i < j`, in the
order of the nested loops of engine.py lines 155-156. -/
def orderedPairs {α : Type} : List α → List (α × α)
  | [] => []
  | a :: rest => rest.map (fun b => (a, b)) ++ orderedPairs rest

/-- Embedding of `FateEngine._apply_personality_drift` (engine.py lines
138-173), acting on the store's character dict. -/
def apply_personality_drift (chars : Dict Character) (ev : Event) :
    Dict Character × List DriftRec :=
  if ev.actors.isEmpty then (chars, [])
  else
    let d := driftDelta ev.type
    if d = 0 then (chars, [])
    else
      (orderedPairs ev.actors).foldl
        (fun acc p =>
          let r := driftPairStep acc.1 d p.1 p.2
          (r.1, match r.2 with
            | some rec2 => acc.2 ++ [rec2]
            | none => acc.2))
        (chars, [])

/-! ## Memory summarization (state.py lines 135-158) -/

/-- Embedding of `WorldStore.summarize_memories`.  `llmText` is the text
the external generator call `llm.summarize_memories(...)` returns (that
call happens before the failure point).  state.py never imports `uuid`, so
`str(uuid.uuid4())` on line 147 raises `NameError` whenever this path is
reached; the embedding surfaces that exception as an `Except.error`.  The
two early `return None` paths (unknown character, no resolvable memories)
are unaffected. -/
def WorldStore.summarize_memories (s : WorldStore) (llmText : String)
    (char_id : String) (limit : Nat) : Except String (WorldStore × Option Memory) :=
  match dGet s.world.characters char_id with
  | none => .ok (s, none)
  | some ch =>
    let mem_ids := sliceLast ch.memory_ids limit
    let mems := mem_ids.filterMap (fun mid => dGet s.world.memories mid)
    if mems.isEmpty then .ok (s, none)
    else
      let _summary_text := llmText
      .error "NameError: name uuid is not defined"

/-! ## Text generator client (src/world/llm/client.py) -/

/-- Python `str.strip()` on a character list. -/
def pyStripChars (cs : List Char) : List Char :=
  ((cs.dropWhile Char.isWhitespace).reverse.dropWhile Char.isWhitespace).reverse

/-- Case-insensitive literal-tag match: if `cs` starts with `tag` (up to
`Char.toLower`), return the remainder. -/
def matchTagAt (tag : List Char) (cs : List Char) : Option (List Char) :=
  match tag, cs with
  | [], rest => some rest
  | _ :: _, [] => none
  | t :: ts, c :: cs2 => if c.toLower = t.toLower then matchTagAt ts cs2 else none

/-- Find the first closing tag and return what follows it (the non-greedy
`.*?` of the regex stops at the nearest closer). -/
def findCloseTag : List Char → Option (List Char)
  | [] => none
  | c :: cs =>
    match matchTagAt ("</think>".data) (c :: cs) with
    | some rest => some rest
    | none => findCloseTag cs

/-- Left-to-right scan removing every `<think>...</think>` span
(case-insensitive, dot-matches-newline), fueled by the input length (each
step consumes at least one character). -/
def stripThinkGo : Nat → List Char → List Char
  | 0, cs => cs
  | _, [] => []
  | fuel + 1, c :: rest =>
    match matchTagAt ("<think>".data) (c :: rest) with
    | some afterOpen =>
      match findCloseTag afterOpen with
      | some rest2 => stripThinkGo fuel rest2
      | none => c :: stripThinkGo fuel rest
    | none => c :: stripThinkGo fuel rest

/-- Embedding of `HttpLLMClient._strip_think` on string content:
`re.sub(r"<think>.*?</think>", "", text, flags=DOTALL | IGNORECASE).strip()`. -/
def stripThink (text : String) : String :=
  ⟨pyStripChars (stripThinkGo text.data.length text.data)⟩

/-- A JSON value as Python sees it after `resp.json()`: the
`choices[0].message.content` field can be a string, but also `null` or any
other JSON value (number, boolean, array, object).  A missing key chain
yields the `.get` default `""`, i.e. `jstr ""`. -/
inductive JVal where
  | jnull
  | jbool (b : Bool)
  | jnum (q : ℚ)
  | jstr (s : String)
  | jarr (elems : List JVal)
  | jobj (fields : List (String × JVal))

/-- Python truthiness of a JSON-decoded value (`if cleaned:`):
`None`, `False`, `0`, `""`, `[]` and `{}` are falsy, everything else is
truthy. -/
def JVal.truthy : JVal → Bool
  | .jnull => false
  | .jbool b => b
  | .jnum q => decide (q ≠ 0)
  | .jstr s => decide (s ≠ "")
  | .jarr l => !l.isEmpty
  | .jobj l => !l.isEmpty

/-- Embedding of `HttpLLMClient._strip_think` on an arbitrary content
value: a non-string passes through unchanged (the `isinstance` guard,
client.py lines 38-39); a string gets its think blocks removed and is
stripped. -/
def stripThinkVal : JVal → JVal
  | .jstr s => .jstr (stripThink s)
  | v => v

/-- Outcome of one chat-completions POST as the client observes it:
`failure` for any raised exception (connection error, timeout,
`raise_for_status`, unparseable body), or the extracted
`choices[0].message.content` value. -/
inductive CallOutcome where
  | failure
  | success (content : JVal)

/-- The fixed narration placeholder of `describe_event`. -/
def describePlaceholder : String := "（两人简短地聊了几句，彼此点头示意。）"

/-- Embedding of `HttpLLMClient.describe_event` (client.py lines 55-108).
Prompt construction only feeds the external call; the returned value
depends on the call outcome alone.  Note the return is a `JVal`, not a
string: `return cleaned if cleaned else placeholder` (line 106) returns
any truthy non-string content unchanged, despite the `-> str`
annotation. -/
def describe_event (outcome : CallOutcome) : JVal :=
  match outcome with
  | .failure => .jstr describePlaceholder
  | .success content =>
    let cleaned := stripThinkVal content
    if cleaned.truthy then cleaned else .jstr describePlaceholder

/-- Result of `generate_incident`: either the raw `json.loads` value, or a
`{"title": ..., "description": ...}` dict whose description is the cleaned
content value. -/
inductive IncidentOut (J : Type) where
  | parsed (v : J)
  | wrapped (title : String) (description : JVal)

/-- The fixed incident-description placeholder. -/
def incidentPlaceholderText : String := "一个平凡的小插曲发生了。"

/-- Embedding of `HttpLLMClient.generate_incident` (client.py lines
110-156).  `jsonParse` stands for `json.loads` on a string, returning
`none` when it raises; on a non-string content `json.loads` raises
`TypeError`, which the inner `except` catches, so the non-string value is
wrapped unchanged as the description. -/
def generate_incident {J : Type} (jsonParse : String → Option J)
    (outcome : CallOutcome) : IncidentOut J :=
  match outcome with
  | .failure => .wrapped "incident" (.jstr incidentPlaceholderText)
  | .success content =>
    match content with
    | .jstr s =>
      match jsonParse s with
      | some v => .parsed v
      | none => .wrapped "incident" (.jstr (stripThink s))
    | v => .wrapped "incident" (stripThinkVal v)

/-- Python `dialogue[:200]` as `_record_memories` (engine.py line 182)
applies it to the value `describe_event` returned: slicing is defined for
strings and lists, while `None`, booleans, numbers and dicts raise
`TypeError` — and nothing in `process_due_events` catches it. -/
def pySlice200 : JVal → Except String JVal
  | .jstr s => .ok (.jstr (String.mk (s.data.take 200)))
  | .jarr l => .ok (.jarr (l.take 200))
  | _ => .error "TypeError"

/-! ## The C1 store invariant -/

/-- The C1 invariant over a store: both maps have unique keys; every
character's memory list is within the cap, duplicate-free, and references
only present memories; every stored memory is referenced by some
character; and no memory ID is referenced by two characters. -/
def StoreInv (s : WorldStore) : Prop :=
  (dKeys s.world.memories).Nodup
  ∧ (dKeys s.world.characters).Nodup
  ∧ (∀ p ∈ s.world.characters,
      p.2.memory_ids.length ≤ s.memory_limit
      ∧ p.2.memory_ids.Nodup
      ∧ ∀ mid ∈ p.2.memory_ids, (dGet s.world.memories mid).isSome)
  ∧ (∀ q ∈ s.world.memories, ∃ p ∈ s.world.characters, q.1 ∈ p.2.memory_ids)
  ∧ (∀ p ∈ s.world.characters, ∀ p2 ∈ s.world.characters,
      ∀ mid ∈ p.2.memory_ids, mid ∈ p2.2.memory_ids → p.1 = p2.1)

/-- `StoreInv` is decidable, so witnesses can check it on concrete
stores. -/
instance (s : WorldStore) : Decidable (StoreInv s) :=
  inferInstanceAs (Decidable ((dKeys s.world.memories).Nodup
    ∧ (dKeys s.world.characters).Nodup
    ∧ (∀ p ∈ s.world.characters,
        p.2.memory_ids.length ≤ s.memory_limit
        ∧ p.2.memory_ids.Nodup
        ∧ ∀ mid ∈ p.2.memory_ids, (dGet s.world.memories mid).isSome)
    ∧ (∀ q ∈ s.world.memories, ∃ p ∈ s.world.characters, q.1 ∈ p.2.memory_ids)
    ∧ (∀ p ∈ s.world.characters, ∀ p2 ∈ s.world.characters,
        ∀ mid ∈ p.2.memory_ids, mid ∈ p2.2.memory_ids → p.1 = p2.1)))

/-- The C1 precondition on a call sequence, checked along the evolving
store: each added memory has an ID not already in the memory map (all IDs
distinct) and an owner that exists. -/
def addSeqOK : WorldStore → List Memory → Bool
  | _, [] => true
  | s, m :: rest =>
    (dGet s.world.memories m.id).isNone
    && (dGet s.world.characters m.owner_id).isSome
    && addSeqOK (s.add_memory m) rest

/-! ## Timeline stepping (src/world/api/routes.py lines 524-612) -/

/-- Embedding of `core.timeline.Timeline`. -/
structure Timeline where
  id : String
  title : String
  scenes : List String := []
  current_scene_idx : Nat := 0
  status : String := "active"
  participants : List String := []
  background_tags : List String := []
  max_scenes : Nat := 3
  deriving Repr, DecidableEq

/-- Modelled from the spec: the store-level scene and timeline collections.
`store.add_scene`, `store.get_scene`, `store.timelines` and
`store.get_active_timeline` are called from routes.py but are not defined
anywhere in the sources; spec section 4.1 gives insert-by-ID upsert
semantics for the entity collections and section 4.5 describes
active-timeline selection as the first timeline with status `"active"`.
Both collections are keyed by entity ID.  `background` and `characters`
mirror the world fields `step_timeline` reads (the two lookups
`store.timelines` / `store.world.timelines` on routes.py line 531 hit this
single modelled collection). -/
structure SceneStore where
  background : String := ""
  characters : Dict Character := []
  scenes : Dict Scene := []
  timelines : Dict Timeline := []
  deriving Repr, DecidableEq

/-- Modelled from the spec: `store.get_scene(scene_id)`. -/
def SceneStore.get_scene (st : SceneStore) (sid : String) : Option Scene :=
  dGet st.scenes sid

/-- Modelled from the spec: `store.add_scene(scene)` (insert by ID). -/
def SceneStore.add_scene (st : SceneStore) (sc : Scene) : SceneStore :=
  { st with scenes := dSet st.scenes sc.id sc }

/-- Modelled from the spec: `store.get_active_timeline()` — the first
timeline with status `"active"`. -/
def SceneStore.get_active_timeline (st : SceneStore) : Option Timeline :=
  (st.timelines.find? (fun p => p.2.status == "active")).map Prod.snd

/-- The outputs of the external collaborators consumed during one
`step_timeline` request: the structured `generate_scene` response (absent
keys as `none`; a non-int `max_turns` behaves like an absent one, matching
the isinstance guard), the fresh scene ID, the `_pick_location_id`
fallback draw, the generated utterance, and its capture timestamp. -/
structure StepOracle where
  genTitle : Option String := none
  genLocationId : Option String := none
  genBackgroundTags : Option (List String) := none
  genMaxTurns : Option Nat := none
  newSceneId : String := "scene-new"
  pickLocation : Option String := none
  utterance : String := ""
  ts : ℚ := 0
  deriving Repr, DecidableEq

/-- The JSON responses `step_timeline` can produce, plus the raised
exceptions: `httpError` for `HTTPException` and for the
`ZeroDivisionError` that `next_speaker` raises on an empty participant
list. -/
inductive StepResp where
  | httpError (code : Nat) (detail : String)
  | completedResp (timeline_id : String)
  | missingSpeaker (timeline_id : String)
  | turnResp (timeline_id : String) (status : String) (scene_id : String)
      (scene_status : String) (speaker : String) (utterance : String) (turn_count : Nat)
  deriving Repr, DecidableEq

/-- Embedding of `step_timeline` (routes.py lines 524-612).  Python
mutates the timeline and scene objects held inside the store's dicts in
place; here every mutation is written back through `dSet` at the entity's
ID (the collections are ID-keyed).  The auto-create branch (lines 535-537)
calls the separate `auto_timeline` endpoint, which draws random
participants; it is represented by its failure response here and is
unreachable under the hypotheses of the theorems below, which always name
an existing timeline. -/
def step_timeline (st : SceneStore) (o : StepOracle) (timeline_id : Option String) :
    SceneStore × StepResp :=
  let found := match timeline_id with
    | some tid => if tid = "" then none else dGet st.timelines tid
    | none => none
  let tl? := match found with
    | some t => some t
    | none => st.get_active_timeline
  match tl? with
  | none => (st, .httpError 500 "timeline not found or failed to create")
  | some timeline =>
    if timeline.status = "completed" then
      (st, .completedResp timeline.id)
    else if timeline.scenes.length ≤ timeline.current_scene_idx then
      let tdone := { timeline with status := "completed" }
      ({ st with timelines := dSet st.timelines timeline.id tdone },
       .completedResp timeline.id)
    else
      match timeline.scenes[timeline.current_scene_idx]? with
      | none => (st, .httpError 404 "scene not found")
      | some scene_id =>
        match st.get_scene scene_id with
        | none => (st, .httpError 404 "scene not found")
        | some scene0 =>
          let next? : Option (SceneStore × Timeline × Scene) :=
            if scene0.status = "completed" then
              if timeline.scenes.length < timeline.max_scenes then
                let new_scene : Scene :=
                  { id := o.newSceneId
                    title := o.genTitle.getD ("Scene " ++ toString (timeline.scenes.length + 1))
                    participants := timeline.participants
                    location_id := match o.genLocationId with
                      | some l => if l = "" then o.pickLocation else some l
                      | none => o.pickLocation
                    background_tags := o.genBackgroundTags.getD timeline.background_tags
                    max_turns := o.genMaxTurns.getD 6 }
                let timeline1 := { timeline with
                  scenes := timeline.scenes ++ [new_scene.id]
                  current_scene_idx := timeline.current_scene_idx + 1 }
                let st1 := { st.add_scene new_scene with
                  timelines := dSet st.timelines timeline1.id timeline1 }
                some (st1, timeline1, new_scene)
              else none
            else some (st, timeline, scene0)
          match next? with
          | none =>
            let tdone := { timeline with status := "completed" }
            ({ st with timelines := dSet st.timelines timeline.id tdone },
             .completedResp timeline.id)
          | some (st1, timeline1, scene1) =>
            match scene1.next_speaker with
            | none => (st1, .httpError 500 "ZeroDivisionError")
            | some speaker_id =>
              match dGet st1.characters speaker_id with
              | none =>
                let scene2 := { scene1 with status := "completed" }
                ({ st1 with scenes := dSet st1.scenes scene2.id scene2 },
                 .missingSpeaker timeline1.id)
              | some speaker =>
                let recent := sliceLast scene1.turns 5
                let utterance :=
                  if o.utterance ∈ recent.map SceneTurn.utterance then
                    speaker.name ++ "换了个角度补充道：" ++ o.utterance
                  else o.utterance
                let scene2 := scene1.add_turn speaker_id utterance o.ts
                let timeline2 :=
                  if scene2.status = "completed" then
                    let t2 := { timeline1 with
                      current_scene_idx := timeline1.current_scene_idx + 1 }
                    if t2.scenes.length ≤ t2.current_scene_idx then
                      { t2 with status := "completed" }
                    else t2
                  else timeline1
                let st2 := { st1 with
                  scenes := dSet st1.scenes scene2.id scene2
                  timelines := dSet st1.timelines timeline2.id timeline2 }
                (st2,
                 .turnResp timeline2.id timeline2.status scene2.id scene2.status speaker_id
                   utterance scene2.turns.length)

/-! ## Observers used to state the effect claims -/

/-- Names of the four scalar mappings an effect can touch. -/
inductive FieldContainer where
  | statesC
  | traitsC
  | relC
  | attrC
  deriving Repr, DecidableEq

/-- The selected mapping of a character. -/
def containerOf (ch : Character) : FieldContainer → Dict ℚ
  | .statesC => ch.states
  | .traitsC => ch.traits
  | .relC => ch.relationships
  | .attrC => ch.attributes

/-- The container/key pair the prefix dispatch of `_apply_effects` selects
for a field spec: `state:` / `trait:` / `rel:` / `attr:` pick the
corresponding mapping under the rest of the string; anything else picks
`states` under the literal field. -/
def dispatchTarget (f : String) : FieldContainer × String :=
  if strStartsWith f "state:" then (.statesC, afterColon f)
  else if strStartsWith f "trait:" then (.traitsC, afterColon f)
  else if strStartsWith f "rel:" then (.relC, afterColon f)
  else if strStartsWith f "attr:" then (.attrC, afterColon f)
  else (.statesC, f)

/-- The character update performed by one effect-loop iteration on its
resolved target (the five-way cascade of engine.py lines 109-132). -/
def updCharacter (ch : Character) (f : String) (d sv : Option ℚ) : Character :=
  if strStartsWith f "state:" then
    { ch with states := (effApplyValue ch.states (afterColon f) d sv).1 }
  else if strStartsWith f "trait:" then
    { ch with traits := (effApplyValue ch.traits (afterColon f) d sv).1 }
  else if strStartsWith f "rel:" then
    { ch with relationships := (effApplyValue ch.relationships (afterColon f) d sv).1 }
  else if strStartsWith f "attr:" then
    { ch with attributes := (effApplyValue ch.attributes (afterColon f) d sv).1 }
  else
    { ch with states := (effApplyValue ch.states f d sv).1 }

/-! ## Concrete inputs used by the witnesses -/

/-- A minimal character. -/
def mkChar (cid : String) : Character :=
  { id := cid, name := cid, age := 20, role := "villager" }

/-- A minimal world holding the given characters and memories. -/
def mkWorld (chars : Dict Character) (mems : Dict Memory) : World :=
  { id := "w", name := "w", background := "", characters := chars, memories := mems }

/-- C1 witness store: one character, eviction cap 2. -/
def c1Store : WorldStore :=
  { world := mkWorld [("alice", mkChar "alice")] [], memory_limit := 2 }

/-- C1 witness memories owned by alice. -/
def c1Mem (mid : String) : Memory := { id := mid, owner_id := "alice", summary := "s" }

/-- C2 witness event. -/
def c2Event (eid : String) (t : Int) : Event :=
  { id := eid, type := "random_encounter", created_at := 0, scheduled_for := t }

/-- C2 witness engine: two queued events due at ticks 0 and 5. -/
def c2Engine : FateEngine :=
  { store := { world := mkWorld [] [] }
    event_queue := [("e1", c2Event "e1" 0), ("e2", c2Event "e2" 5)] }

/-- C3/C4/C8 witness characters. -/
def c3Chars : Dict Character :=
  [("a", { mkChar "a" with states := [("mood", 1 / 2)] }), ("b", mkChar "b")]

/-- C4 witness event: a two-actor encounter. -/
def c4Event : Event :=
  { id := "e", type := "random_encounter", created_at := 0, scheduled_for := 0,
    actors := ["a", "b"] }

/-- C6 store: `c1` owns one memory (the crashing path), `c2` owns none. -/
def c6Store : WorldStore :=
  { world := mkWorld
      [("c1", { mkChar "c1" with memory_ids := ["m1"] }), ("c2", mkChar "c2")]
      [("m1", { id := "m1", owner_id := "c1", summary := "hello" })] }

/-- C5 scene 1, already completed. -/
def c5Scene1 : Scene :=
  { id := "s1", title := "one", participants := ["a", "b"], status := "completed" }

/-- C5 timeline: cap 2, holding scene 1. -/
def c5Timeline : Timeline :=
  { id := "tl", title := "arc", scenes := ["s1"], current_scene_idx := 0,
    participants := ["a", "b"], max_scenes := 2 }

/-- C5 store for part 1 (scene 1 completed, scene 2 not yet generated). -/
def c5Store : SceneStore :=
  { characters := [("a", mkChar "a"), ("b", mkChar "b")]
    scenes := [("s1", c5Scene1)]
    timelines := [("tl", c5Timeline)] }

/-- C5 oracle: scene 2 gets id `s2` and a 2-turn cap. -/
def c5Oracle : StepOracle :=
  { newSceneId := "s2", utterance := "hi", genMaxTurns := some 2 }

/-- C5 scene 2 with one turn taken (`max_turns = 2`, so the next turn
completes it). -/
def c5Scene2a : Scene :=
  { id := "s2", title := "two", participants := ["a", "b"], max_turns := 2,
    turns := [{ speaker := "a", utterance := "hoi", ts := 0 }] }

/-- C5 timeline positioned on scene 2. -/
def c5Timeline2 : Timeline :=
  { c5Timeline with scenes := ["s1", "s2"], current_scene_idx := 1 }

/-- C5 store for part 2a: scene 2 active, one turn away from completing. -/
def c5Store2a : SceneStore :=
  { c5Store with
    scenes := [("s1", c5Scene1), ("s2", c5Scene2a)]
    timelines := [("tl", c5Timeline2)] }

/-- C5 store for part 2b: scene 2 already completed, cap reached. -/
def c5Store2b : SceneStore :=
  { c5Store with
    scenes := [("s1", c5Scene1), ("s2", { c5Scene2a with status := "completed" })]
    timelines := [("tl", c5Timeline2)] }

@[simp]
theorem dGet_nil {α : Type} (k : String) : dGet ([] : Dict α) k = none := rfl

@[simp]
theorem dGet_cons {α : Type} (k2 : String) (v : α) (rest : Dict α) (k : String) :
    dGet ((k2, v) :: rest) k = if k2 = k then some v else dGet rest k := rfl

theorem dGet_dSet_self {α : Type} (m : Dict α) (k : String) (v : α) :
    dGet (dSet m k v) k = some v := by
  induction m with
  | nil => simp [dSet]
  | cons p rest ih =>
    obtain ⟨k2, v2⟩ := p
    by_cases h : k2 = k <;> simp [dSet, h, ih]

theorem dGet_dSet_ne {α : Type} (m : Dict α) (k k2 : String) (v : α) (h : k ≠ k2) :
    dGet (dSet m k v) k2 = dGet m k2 := by
  induction m with
  | nil => simp [dSet, h]
  | cons p rest ih =>
    obtain ⟨k3, v3⟩ := p
    by_cases h3 : k3 = k
    · subst h3
      simp [dSet, h]
    · simp only [dSet, if_neg h3, dGet_cons]
      by_cases h4 : k3 = k2 <;> simp [h4, ih]

theorem dPop_sublist {α : Type} (m : Dict α) (k : String) : (dPop m k).Sublist m := by
  induction m with
  | nil => simp [dPop]
  | cons p rest ih =>
    obtain ⟨k2, v2⟩ := p
    by_cases h : k2 = k
    · simp [dPop, h]
    · simpa [dPop, h] using ih.cons₂ (k2, v2)

theorem dGet_eq_none_iff {α : Type} (m : Dict α) (k : String) :
    dGet m k = none ↔ k ∉ dKeys m := by
  induction m with
  | nil => simp [dKeys]
  | cons p rest ih =>
    obtain ⟨k2, v2⟩ := p
    by_cases h : k2 = k
    · subst h
      simp [dKeys]
    · simp only [dGet_cons, if_neg h, dKeys, List.map_cons, List.mem_cons]
      rw [show (dGet rest k = none ↔ k ∉ dKeys rest) from ih]
      constructor
      · intro hk hc
        rcases hc with hc | hc
        · exact h hc.symm
        · exact hk hc
      · intro hk
        exact fun hc => hk (Or.inr hc)

theorem dGet_mem {α : Type} {m : Dict α} {k : String} {v : α} :
    dGet m k = some v → (k, v) ∈ m := by
  induction m with
  | nil => intro h; simp [dGet] at h
  | cons p rest ih =>
    obtain ⟨k2, v2⟩ := p
    intro h
    rw [dGet_cons] at h
    by_cases h2 : k2 = k
    · rw [if_pos h2] at h
      injection h with h3
      subst h3
      subst h2
      exact List.mem_cons_self _ _
    · rw [if_neg h2] at h
      exact List.mem_cons_of_mem _ (ih h)

theorem mem_dGet {α : Type} {m : Dict α} (hnd : (dKeys m).Nodup) {k : String} {v : α}
    (h : (k, v) ∈ m) : dGet m k = some v := by
  revert hnd h
  induction m with
  | nil => intro _ h; simp at h
  | cons p rest ih =>
    intro hnd h
    obtain ⟨k2, v2⟩ := p
    simp only [dKeys, List.map_cons, List.nodup_cons] at hnd
    rcases List.mem_cons.mp h with h1 | h1
    · rw [Prod.mk.injEq] at h1
      simp [dGet_cons, h1.1, h1.2]
    · have hk : k2 ≠ k := by
        intro he
        subst he
        exact hnd.1 (List.mem_map.mpr ⟨(k2, v), h1, rfl⟩)
      simp [dGet_cons, hk, ih hnd.2 h1]

theorem mem_dSet {α : Type} {m : Dict α} (hnd : (dKeys m).Nodup) (k : String) (v : α)
    (p : String × α) :
    p ∈ dSet m k v ↔ p = (k, v) ∨ (p ∈ m ∧ p.1 ≠ k) := by
  revert hnd
  induction m with
  | nil =>
    intro _
    simp [dSet]
  | cons q rest ih =>
    intro hnd
    obtain ⟨k2, v2⟩ := q
    simp only [dKeys, List.map_cons, List.nodup_cons] at hnd
    by_cases h : k2 = k
    · subst h
      rw [show dSet ((k2, v2) :: rest) k2 v = (k2, v) :: rest by simp [dSet]]
      constructor
      · intro hp
        rcases List.mem_cons.mp hp with rfl | hp2
        · exact Or.inl rfl
        · refine Or.inr ⟨List.mem_cons_of_mem _ hp2, fun he => hnd.1 ?_⟩
          exact he ▸ List.mem_map_of_mem Prod.fst hp2
      · rintro (rfl | ⟨hp, hne⟩)
        · exact List.mem_cons_self _ _
        · rcases List.mem_cons.mp hp with rfl | hp2
          · exact absurd rfl hne
          · exact List.mem_cons_of_mem _ hp2
    · rw [show dSet ((k2, v2) :: rest) k v = (k2, v2) :: dSet rest k v by simp [dSet, h]]
      constructor
      · intro hp
        rcases List.mem_cons.mp hp with rfl | hp2
        · exact Or.inr ⟨List.mem_cons_self _ _, h⟩
        · rcases (ih hnd.2).mp hp2 with rfl | ⟨hp3, hne⟩
          · exact Or.inl rfl
          · exact Or.inr ⟨List.mem_cons_of_mem _ hp3, hne⟩
      · rintro (rfl | ⟨hp, hne⟩)
        · exact List.mem_cons_of_mem _ ((ih hnd.2).mpr (Or.inl rfl))
        · rcases List.mem_cons.mp hp with rfl | hp2
          · exact List.mem_cons_self _ _
          · exact List.mem_cons_of_mem _ ((ih hnd.2).mpr (Or.inr ⟨hp2, hne⟩))

theorem mem_dPop {α : Type} {m : Dict α} (hnd : (dKeys m).Nodup) (k : String)
    (p : String × α) :
    p ∈ dPop m k ↔ p ∈ m ∧ p.1 ≠ k := by
  revert hnd
  induction m with
  | nil =>
    intro _
    simp [dPop]
  | cons q rest ih =>
    intro hnd
    obtain ⟨k2, v2⟩ := q
    simp only [dKeys, List.map_cons, List.nodup_cons] at hnd
    by_cases h : k2 = k
    · subst h
      rw [show dPop ((k2, v2) :: rest) k2 = rest by simp [dPop]]
      constructor
      · intro hp
        refine ⟨List.mem_cons_of_mem _ hp, fun he => hnd.1 ?_⟩
        exact he ▸ List.mem_map_of_mem Prod.fst hp
      · rintro ⟨hp, hne⟩
        rcases List.mem_cons.mp hp with rfl | hp2
        · exact absurd rfl hne
        · exact hp2
    · rw [show dPop ((k2, v2) :: rest) k = (k2, v2) :: dPop rest k by simp [dPop, h]]
      constructor
      · intro hp
        rcases List.mem_cons.mp hp with rfl | hp2
        · exact ⟨List.mem_cons_self _ _, h⟩
        · obtain ⟨hp3, hne⟩ := (ih hnd.2).mp hp2
          exact ⟨List.mem_cons_of_mem _ hp3, hne⟩
      · rintro ⟨hp, hne⟩
        rcases List.mem_cons.mp hp with rfl | hp2
        · exact List.mem_cons_self _ _
        · exact List.mem_cons_of_mem _ ((ih hnd.2).mpr ⟨hp2, hne⟩)

theorem dGet_dPop_self {α : Type} {m : Dict α} (hnd : (dKeys m).Nodup) (k : String) :
    dGet (dPop m k) k = none := by
  rw [dGet_eq_none_iff]
  intro hk
  obtain ⟨p, hp, hpk⟩ := List.mem_map.mp hk
  have := (mem_dPop hnd k p).mp hp
  exact this.2 hpk

theorem dGet_dPop_ne {α : Type} (m : Dict α) (k k2 : String) (h : k ≠ k2) :
    dGet (dPop m k) k2 = dGet m k2 := by
  induction m with
  | nil => simp [dPop]
  | cons p rest ih =>
    obtain ⟨k3, v3⟩ := p
    by_cases h3 : k3 = k
    · subst h3
      simp [dPop, h]
    · simp only [dPop, if_neg h3, dGet_cons]
      by_cases h4 : k3 = k2 <;> simp [h4, ih]

theorem dKeys_nodup_dSet {α : Type} {m : Dict α} (hnd : (dKeys m).Nodup) (k : String) (v : α) :
    (dKeys (dSet m k v)).Nodup := by
  revert hnd
  induction m with
  | nil =>
    intro _
    simp [dSet, dKeys]
  | cons p rest ih =>
    intro hnd
    obtain ⟨k2, v2⟩ := p
    simp only [dKeys, List.map_cons, List.nodup_cons] at hnd
    by_cases h : k2 = k
    · subst h
      rw [show dSet ((k2, v2) :: rest) k2 v = (k2, v) :: rest by simp [dSet]]
      simpa [dKeys] using hnd
    · rw [show dSet ((k2, v2) :: rest) k v = (k2, v2) :: dSet rest k v by simp [dSet, h]]
      have hk2 : k2 ∉ dKeys (dSet rest k v) := by
        intro hmem
        obtain ⟨r, hr, hrk⟩ := List.mem_map.mp hmem
        rcases (mem_dSet hnd.2 k v r).mp hr with rfl | ⟨hr2, _⟩
        · exact h hrk.symm
        · exact hnd.1 (List.mem_map.mpr ⟨r, hr2, hrk⟩)
      simp only [dKeys, List.map_cons, List.nodup_cons]
      exact ⟨hk2, ih hnd.2⟩

theorem dKeys_nodup_dPop {α : Type} {m : Dict α} (hnd : (dKeys m).Nodup) (k : String) :
    (dKeys (dPop m k)).Nodup :=
  ((dPop_sublist m k).map Prod.fst).nodup hnd

/-- C7: for every scene with a non-empty participant list, `next_speaker`
returns the participant at index `turn count mod participant count`;
`add_turn` appends the turn and (from an active scene) completes the scene
exactly when the new turn count reaches `max_turns`; the concrete scene
with participants `[A, B, C]` and `max_turns = 4` produces the speaker
order `A, B, C, A` and is then completed. -/
theorem scene_round_robin_spec :
    (∀ (s : Scene), s.participants ≠ [] →
      ∃ (h : s.turns.length % s.participants.length < s.participants.length),
        s.next_speaker = some (s.participants.get ⟨s.turns.length % s.participants.length, h⟩))
    ∧ (∀ (s : Scene) (sp u : String) (ts : ℚ),
        (s.add_turn sp u ts).turns = s.turns ++ [{ speaker := sp, utterance := u, ts := ts }])
    ∧ (∀ (s : Scene) (sp u : String) (ts : ℚ), s.status = "active" →
        ((s.add_turn sp u ts).status = "completed" ↔ s.max_turns ≤ s.turns.length + 1))
    ∧ ((((((c7Scene.stepScene "u1" 0).stepScene "u2" 0).stepScene "u3" 0).stepScene "u4" 0).turns.map
          SceneTurn.speaker) = ["A", "B", "C", "A"]
        ∧ ((((c7Scene.stepScene "u1" 0).stepScene "u2" 0).stepScene "u3" 0).stepScene "u4" 0).status
            = "completed"
        ∧ (((c7Scene.stepScene "u1" 0).stepScene "u2" 0).stepScene "u3" 0).status = "active") := by
  refine ⟨?_, ?_, ?_, by decide, by decide, by decide⟩
  · intro s hne
    have hlen : 0 < s.participants.length := List.length_pos.mpr hne
    have h : s.turns.length % s.participants.length < s.participants.length :=
      Nat.mod_lt _ hlen
    exact ⟨h, by simp [Scene.next_speaker, List.getElem?_eq_getElem h]⟩
  · intro s sp u ts
    by_cases h : s.turns.length + 1 ≥ s.max_turns
    · simp [Scene.add_turn, h]
    · simp [Scene.add_turn, h]
  · intro s sp u ts hact
    by_cases h : s.max_turns ≤ s.turns.length + 1
    · simp [Scene.add_turn, h]
    · simp only [Scene.add_turn, List.length_append, List.length_cons, List.length_nil,
        Nat.zero_add, ge_iff_le, if_neg h]
      rw [hact]
      simp [h]

/-- Witness for C7: the concrete scene `c7w` (participants `[A, B]`, one
turn taken) asks participant `B` (index `1 mod 2`) to speak, and the second
turn completes it (`max_turns = 2`). -/
theorem scene_round_robin_spec_witness :
    c7w.next_speaker = some "B" ∧ (c7w.add_turn "B" "yo" 0).status = "completed" := by
  constructor
  · obtain ⟨hlt, hs⟩ := scene_round_robin_spec.1 c7w (by decide)
    simpa using hs
  · exact (scene_round_robin_spec.2.2.1 c7w "B" "yo" 0 rfl).mpr (by decide)

/-- C10: `Scene.add_turn` itself never rejects a turn: called on an
already-completed scene it still appends the turn record (so the turn count
can exceed `max_turns`) and the status stays `"completed"` — the completion
transition is one-way. -/
theorem add_turn_no_reject (s : Scene) (sp u : String) (ts : ℚ)
    (hdone : s.status = "completed") :
    (s.add_turn sp u ts).turns = s.turns ++ [{ speaker := sp, utterance := u, ts := ts }]
    ∧ (s.add_turn sp u ts).turns.length = s.turns.length + 1
    ∧ (s.add_turn sp u ts).status = "completed" := by
  by_cases h : s.turns.length + 1 ≥ s.max_turns
  · refine ⟨by simp [Scene.add_turn, h], by simp [Scene.add_turn, h], by simp [Scene.add_turn, h]⟩
  · exact ⟨by simp [Scene.add_turn, h], by simp [Scene.add_turn, h],
      by simp [Scene.add_turn, h, hdone]⟩

/-- Witness for C10: the completed scene `c10w` with `max_turns = 1` and one
turn accepts a second turn (count 2 exceeds the cap) and stays completed. -/
theorem add_turn_no_reject_witness :
    (c10w.add_turn "A" "more" 0).turns.length = 2
    ∧ (c10w.add_turn "A" "more" 0).status = "completed" := by
  have h := add_turn_no_reject c10w "A" "more" 0 rfl
  exact ⟨by rw [h.2.1]; rfl, h.2.2⟩

theorem dSet_eq_of_dGet {α : Type} {m : Dict α} {k : String} {v : α}
    (h : dGet m k = some v) : dSet m k v = m := by
  induction m with
  | nil => simp at h
  | cons p rest ih =>
    obtain ⟨k2, v2⟩ := p
    by_cases h2 : k2 = k
    · subst h2
      rw [dGet_cons, if_pos rfl] at h
      injection h with h3
      subst h3
      simp [dSet]
    · rw [dGet_cons, if_neg h2] at h
      simp [dSet, h2, ih h]

theorem strStartsWithAux_self (l r : List Char) : strStartsWithAux l (l ++ r) = true := by
  induction l with
  | nil => rfl
  | cons c cs ih => simp [strStartsWithAux, ih]

theorem strStartsWith_append (p k : String) : strStartsWith (p ++ k) p = true := by
  rw [strStartsWith, String.data_append]
  exact strStartsWithAux_self _ _

theorem strStartsWithAux_ne_head (p c : Char) (ps cs : List Char) (h : ¬ p = c) :
    strStartsWithAux (p :: ps) (c :: cs) = false := by
  simp [strStartsWithAux, h]

theorem not_state_of_trait (k : String) : strStartsWith ("trait:" ++ k) "state:" = false := by
  rw [strStartsWith, String.data_append]
  exact strStartsWithAux_ne_head 's' 't' _ _ (by decide)

theorem not_state_of_rel (k : String) : strStartsWith ("rel:" ++ k) "state:" = false := by
  rw [strStartsWith, String.data_append]
  exact strStartsWithAux_ne_head 's' 'r' _ _ (by decide)

theorem not_trait_of_rel (k : String) : strStartsWith ("rel:" ++ k) "trait:" = false := by
  rw [strStartsWith, String.data_append]
  exact strStartsWithAux_ne_head 't' 'r' _ _ (by decide)

theorem not_state_of_attr (k : String) : strStartsWith ("attr:" ++ k) "state:" = false := by
  rw [strStartsWith, String.data_append]
  exact strStartsWithAux_ne_head 's' 'a' _ _ (by decide)

theorem not_trait_of_attr (k : String) : strStartsWith ("attr:" ++ k) "trait:" = false := by
  rw [strStartsWith, String.data_append]
  exact strStartsWithAux_ne_head 't' 'a' _ _ (by decide)

theorem not_rel_of_attr (k : String) : strStartsWith ("attr:" ++ k) "rel:" = false := by
  rw [strStartsWith, String.data_append]
  exact strStartsWithAux_ne_head 'r' 'a' _ _ (by decide)

theorem afterColonAux_no_colon (l r : List Char) (h : ':' ∉ l) :
    afterColonAux (l ++ ':' :: r) = r := by
  induction l with
  | nil => simp [afterColonAux]
  | cons c cs ih =>
    simp only [List.mem_cons, not_or] at h
    have hc : ¬ c = ':' := fun he => h.1 he.symm
    simp [afterColonAux, hc, ih h.2]

theorem afterColon_state (k : String) : afterColon ("state:" ++ k) = k := by
  rw [afterColon, String.data_append]
  have h1 : "state:".data ++ k.data = ['s', 't', 'a', 't', 'e'] ++ ':' :: k.data := rfl
  rw [h1, afterColonAux_no_colon _ _ (by decide)]

theorem afterColon_trait (k : String) : afterColon ("trait:" ++ k) = k := by
  rw [afterColon, String.data_append]
  have h1 : "trait:".data ++ k.data = ['t', 'r', 'a', 'i', 't'] ++ ':' :: k.data := rfl
  rw [h1, afterColonAux_no_colon _ _ (by decide)]

theorem afterColon_rel (k : String) : afterColon ("rel:" ++ k) = k := by
  rw [afterColon, String.data_append]
  have h1 : "rel:".data ++ k.data = ['r', 'e', 'l'] ++ ':' :: k.data := rfl
  rw [h1, afterColonAux_no_colon _ _ (by decide)]

theorem afterColon_attr (k : String) : afterColon ("attr:" ++ k) = k := by
  rw [afterColon, String.data_append]
  have h1 : "attr:".data ++ k.data = ['a', 't', 't', 'r'] ++ ':' :: k.data := rfl
  rw [h1, afterColonAux_no_colon _ _ (by decide)]

theorem effApplyValue_delta (c : Dict ℚ) (k : String) (dv : ℚ) (sv : Option ℚ) :
    (effApplyValue c k (some dv) sv).1 = dSet c k ((dGet c k).getD 0 + dv) := rfl

theorem effApplyValue_set (c : Dict ℚ) (k : String) (v : ℚ) :
    (effApplyValue c k none (some v)).1 = dSet c k v := rfl

theorem effApplyValue_noop (c : Dict ℚ) (k : String) :
    (effApplyValue c k none none).1 = c := rfl

theorem applyOneEffect_eq (chars : Dict Character) (tid f : String) (d sv : Option ℚ)
    (ch : Character) (htid : tid ≠ "") (hf : f ≠ "") (hch : dGet chars tid = some ch) :
    (applyOneEffect chars { target := some tid, field := some f, delta := d, set := sv }).1
      = dSet chars tid (updCharacter ch f d sv) := by
  simp only [applyOneEffect]
  rw [if_neg (by simp [htid, hf])]
  rw [hch]
  unfold updCharacter
  by_cases h1 : strStartsWith f "state:"
  · simp [h1]
  · by_cases h2 : strStartsWith f "trait:"
    · simp [h1, h2]
    · by_cases h3 : strStartsWith f "rel:"
      · simp [h1, h2, h3]
      · by_cases h4 : strStartsWith f "attr:"
        · simp [h1, h2, h3, h4]
        · simp [h1, h2, h3, h4]

theorem containerOf_updCharacter_target (ch : Character) (f : String) (d sv : Option ℚ) :
    containerOf (updCharacter ch f d sv) (dispatchTarget f).1
      = (effApplyValue (containerOf ch (dispatchTarget f).1) (dispatchTarget f).2 d sv).1 := by
  unfold updCharacter dispatchTarget
  by_cases h1 : strStartsWith f "state:"
  · simp [h1, containerOf]
  · by_cases h2 : strStartsWith f "trait:"
    · simp [h1, h2, containerOf]
    · by_cases h3 : strStartsWith f "rel:"
      · simp [h1, h2, h3, containerOf]
      · by_cases h4 : strStartsWith f "attr:"
        · simp [h1, h2, h3, h4, containerOf]
        · simp [h1, h2, h3, h4, containerOf]

theorem containerOf_updCharacter_other (ch : Character) (f : String) (d sv : Option ℚ)
    (c2 : FieldContainer) (hne : c2 ≠ (dispatchTarget f).1) :
    containerOf (updCharacter ch f d sv) c2 = containerOf ch c2 := by
  unfold updCharacter dispatchTarget at *
  by_cases h1 : strStartsWith f "state:"
  · simp only [h1, if_true, if_pos] at hne ⊢
    cases c2 <;> simp_all [containerOf]
  · by_cases h2 : strStartsWith f "trait:"
    · simp only [h1, h2, if_false, if_true, Bool.false_eq_true, if_neg, if_pos] at hne ⊢
      cases c2 <;> simp_all [containerOf]
    · by_cases h3 : strStartsWith f "rel:"
      · simp only [h1, h2, h3, Bool.false_eq_true, if_false, if_true] at hne ⊢
        cases c2 <;> simp_all [containerOf]
      · by_cases h4 : strStartsWith f "attr:"
        · simp only [h1, h2, h3, h4, Bool.false_eq_true, if_false, if_true] at hne ⊢
          cases c2 <;> simp_all [containerOf]
        · simp only [h1, h2, h3, h4, Bool.false_eq_true, if_false] at hne ⊢
          cases c2 <;> simp_all [containerOf]

theorem updCharacter_noop (ch : Character) (f : String) :
    updCharacter ch f none none = ch := by
  unfold updCharacter
  by_cases h1 : strStartsWith f "state:"
  · rw [if_pos h1, effApplyValue_noop]
  · rw [if_neg h1]
    by_cases h2 : strStartsWith f "trait:"
    · rw [if_pos h2, effApplyValue_noop]
    · rw [if_neg h2]
      by_cases h3 : strStartsWith f "rel:"
      · rw [if_pos h3, effApplyValue_noop]
      · rw [if_neg h3]
        by_cases h4 : strStartsWith f "attr:"
        · rw [if_pos h4, effApplyValue_noop]
        · rw [if_neg h4, effApplyValue_noop]

theorem readFieldVal_eq (chars : Dict Character) (tid f : String) (ch : Character)
    (hch : dGet chars tid = some ch) :
    readFieldVal chars tid f
      = dGet (containerOf ch (dispatchTarget f).1) (dispatchTarget f).2 := by
  unfold readFieldVal dispatchTarget
  rw [hch]
  by_cases h1 : strStartsWith f "state:"
  · simp [h1, containerOf]
  · by_cases h2 : strStartsWith f "trait:"
    · simp [h1, h2, containerOf]
    · by_cases h3 : strStartsWith f "rel:"
      · simp [h1, h2, h3, containerOf]
      · by_cases h4 : strStartsWith f "attr:"
        · simp [h1, h2, h3, h4, containerOf]
        · simp [h1, h2, h3, h4, containerOf]

/-- C3: for an effect whose target resolves to an existing character, a
field beginning with `state:`, `trait:`, `rel:` or `attr:` mutates the
corresponding mapping under the key after the prefix, any other non-empty
field mutates `states` under the literal field name, only the selected
mapping and only the selected character change, a present `delta` adds to
the current value (0 when absent), an absent `delta` with a present `set`
overwrites, and with both absent no mapping is changed. -/
theorem effect_field_dispatch (chars : Dict Character) (tid f : String)
    (d sv : Option ℚ) (ch : Character)
    (htid : tid ≠ "") (hf : f ≠ "") (hch : dGet chars tid = some ch) :
    (∀ k : String,
        dispatchTarget ("state:" ++ k) = (FieldContainer.statesC, k)
        ∧ dispatchTarget ("trait:" ++ k) = (FieldContainer.traitsC, k)
        ∧ dispatchTarget ("rel:" ++ k) = (FieldContainer.relC, k)
        ∧ dispatchTarget ("attr:" ++ k) = (FieldContainer.attrC, k))
    ∧ (strStartsWith f "state:" = false → strStartsWith f "trait:" = false →
        strStartsWith f "rel:" = false → strStartsWith f "attr:" = false →
        dispatchTarget f = (FieldContainer.statesC, f))
    ∧ (∃ ch2 : Character,
        dGet (applyOneEffect chars
            { target := some tid, field := some f, delta := d, set := sv }).1 tid = some ch2
        ∧ (∀ c2 : FieldContainer, c2 ≠ (dispatchTarget f).1 →
            containerOf ch2 c2 = containerOf ch c2)
        ∧ (∀ t2 : String, t2 ≠ tid →
            dGet (applyOneEffect chars
              { target := some tid, field := some f, delta := d, set := sv }).1 t2
              = dGet chars t2)
        ∧ (∀ dv : ℚ, d = some dv →
            dGet (containerOf ch2 (dispatchTarget f).1) (dispatchTarget f).2
              = some ((dGet (containerOf ch (dispatchTarget f).1) (dispatchTarget f).2).getD 0 + dv)
            ∧ ∀ k2 : String, k2 ≠ (dispatchTarget f).2 →
                dGet (containerOf ch2 (dispatchTarget f).1) k2
                  = dGet (containerOf ch (dispatchTarget f).1) k2)
        ∧ (∀ v : ℚ, d = none → sv = some v →
            dGet (containerOf ch2 (dispatchTarget f).1) (dispatchTarget f).2 = some v
            ∧ ∀ k2 : String, k2 ≠ (dispatchTarget f).2 →
                dGet (containerOf ch2 (dispatchTarget f).1) k2
                  = dGet (containerOf ch (dispatchTarget f).1) k2)
        ∧ (d = none → sv = none →
            ch2 = ch
            ∧ (applyOneEffect chars
                { target := some tid, field := some f, delta := d, set := sv }).1 = chars)) := by
  refine ⟨?_, ?_, ?_⟩
  · intro k
    refine ⟨?_, ?_, ?_, ?_⟩
    · simp [dispatchTarget, strStartsWith_append, afterColon_state]
    · simp [dispatchTarget, strStartsWith_append, not_state_of_trait, afterColon_trait]
    · simp [dispatchTarget, strStartsWith_append, not_state_of_rel, not_trait_of_rel,
        afterColon_rel]
    · simp [dispatchTarget, strStartsWith_append, not_state_of_attr, not_trait_of_attr,
        not_rel_of_attr, afterColon_attr]
  · intro h1 h2 h3 h4
    simp [dispatchTarget, h1, h2, h3, h4]
  · refine ⟨updCharacter ch f d sv, ?_, ?_, ?_, ?_, ?_, ?_⟩
    · rw [applyOneEffect_eq chars tid f d sv ch htid hf hch, dGet_dSet_self]
    · intro c2 hne
      exact containerOf_updCharacter_other ch f d sv c2 hne
    · intro t2 ht2
      rw [applyOneEffect_eq chars tid f d sv ch htid hf hch,
        dGet_dSet_ne _ _ _ _ (Ne.symm ht2)]
    · intro dv hd
      subst hd
      rw [containerOf_updCharacter_target, effApplyValue_delta]
      exact ⟨dGet_dSet_self _ _ _, fun k2 hk2 => dGet_dSet_ne _ _ _ _ (Ne.symm hk2)⟩
    · intro v hd hsv
      subst hd
      subst hsv
      rw [containerOf_updCharacter_target, effApplyValue_set]
      exact ⟨dGet_dSet_self _ _ _, fun k2 hk2 => dGet_dSet_ne _ _ _ _ (Ne.symm hk2)⟩
    · intro hd hsv
      subst hd
      subst hsv
      refine ⟨updCharacter_noop ch f, ?_⟩
      rw [applyOneEffect_eq chars tid f none none ch htid hf hch, updCharacter_noop,
        dSet_eq_of_dGet hch]

/-- Witness for C3: applying `{target: a, field: "state:mood", delta: 1/4}`
to the concrete characters bumps `mood` from `1/2` to `3/4`. -/
theorem effect_field_dispatch_witness :
    dispatchTarget "state:mood" = (FieldContainer.statesC, "mood")
    ∧ ∃ ch2 : Character,
        dGet (applyOneEffect c3Chars
          { target := some "a", field := some "state:mood", delta := some (1 / 4),
            set := none }).1 "a" = some ch2
        ∧ dGet (containerOf ch2 (dispatchTarget "state:mood").1)
            (dispatchTarget "state:mood").2 = some (3 / 4) := by
  obtain ⟨hdisp, _, ch2, hget, _, _, hdelta, _, _⟩ :=
    effect_field_dispatch c3Chars "a" "state:mood" (some (1 / 4)) none
      { mkChar "a" with states := [("mood", 1 / 2)] } (by decide) (by decide) rfl
  refine ⟨?_, ch2, hget, ?_⟩
  · exact (hdisp "mood").1
  · have hd := (hdelta (1 / 4) rfl).1
    rw [hd]
    have hv : dGet (containerOf ({ mkChar "a" with states := [("mood", (1 : ℚ) / 2)] } : Character)
        (dispatchTarget "state:mood").1) (dispatchTarget "state:mood").2 = some (1 / 2) := rfl
    rw [hv]
    simp only [Option.getD_some, Option.some.injEq]
    norm_num

/-- C8: effect application is idempotent under `set` — applying the same
`set` effect twice leaves the targeted entry at the set value, the same as
applying it once — and additive under `delta` — applying the same `delta`
effect twice yields the original value plus `2 * delta`. -/
theorem effect_set_delta_algebra (chars : Dict Character) (tid f : String) (ch : Character)
    (htid : tid ≠ "") (hf : f ≠ "") (hch : dGet chars tid = some ch) :
    (∀ v : ℚ,
        readFieldVal
          (applyOneEffect
            (applyOneEffect chars
              { target := some tid, field := some f, delta := none, set := some v }).1
            { target := some tid, field := some f, delta := none, set := some v }).1 tid f
          = some v
        ∧ readFieldVal
            (applyOneEffect
              (applyOneEffect chars
                { target := some tid, field := some f, delta := none, set := some v }).1
              { target := some tid, field := some f, delta := none, set := some v }).1 tid f
          = readFieldVal
              (applyOneEffect chars
                { target := some tid, field := some f, delta := none, set := some v }).1 tid f)
    ∧ (∀ (dv : ℚ) (sv : Option ℚ),
        readFieldVal
          (applyOneEffect
            (applyOneEffect chars
              { target := some tid, field := some f, delta := some dv, set := sv }).1
            { target := some tid, field := some f, delta := some dv, set := sv }).1 tid f
          = some ((readFieldVal chars tid f).getD 0 + 2 * dv)) := by
  constructor
  · intro v
    have h1 := applyOneEffect_eq chars tid f none (some v) ch htid hf hch
    have hch1 : dGet (applyOneEffect chars
        { target := some tid, field := some f, delta := none, set := some v }).1 tid
        = some (updCharacter ch f none (some v)) := by
      rw [h1, dGet_dSet_self]
    have h2 := applyOneEffect_eq _ tid f none (some v) _ htid hf hch1
    have hch2 : dGet (applyOneEffect
        (applyOneEffect chars
          { target := some tid, field := some f, delta := none, set := some v }).1
        { target := some tid, field := some f, delta := none, set := some v }).1 tid
        = some (updCharacter (updCharacter ch f none (some v)) f none (some v)) := by
      rw [h2, dGet_dSet_self]
    have hread2 := readFieldVal_eq _ tid f _ hch2
    have hread1 := readFieldVal_eq _ tid f _ hch1
    rw [hread2, hread1, containerOf_updCharacter_target, containerOf_updCharacter_target,
      effApplyValue_set, effApplyValue_set, dGet_dSet_self, dGet_dSet_self]
    exact ⟨rfl, rfl⟩
  · intro dv sv
    have h1 := applyOneEffect_eq chars tid f (some dv) sv ch htid hf hch
    have hch1 : dGet (applyOneEffect chars
        { target := some tid, field := some f, delta := some dv, set := sv }).1 tid
        = some (updCharacter ch f (some dv) sv) := by
      rw [h1, dGet_dSet_self]
    have h2 := applyOneEffect_eq _ tid f (some dv) sv _ htid hf hch1
    have hch2 : dGet (applyOneEffect
        (applyOneEffect chars
          { target := some tid, field := some f, delta := some dv, set := sv }).1
        { target := some tid, field := some f, delta := some dv, set := sv }).1 tid
        = some (updCharacter (updCharacter ch f (some dv) sv) f (some dv) sv) := by
      rw [h2, dGet_dSet_self]
    have hread2 := readFieldVal_eq _ tid f _ hch2
    have hread0 := readFieldVal_eq chars tid f ch hch
    rw [hread2, hread0, containerOf_updCharacter_target, containerOf_updCharacter_target,
      effApplyValue_delta, effApplyValue_delta, dGet_dSet_self, dGet_dSet_self]
    rw [Option.getD_some]
    ring_nf

/-- Witness for C8: on the concrete characters, setting `state:mood` to 2
twice reads back 2, and adding `delta = 1/4` twice reads back
`1/2 + 2 * (1/4) = 1`. -/
theorem effect_set_delta_algebra_witness :
    readFieldVal
      (applyOneEffect
        (applyOneEffect c3Chars
          { target := some "a", field := some "state:mood", delta := none, set := some 2 }).1
        { target := some "a", field := some "state:mood", delta := none, set := some 2 }).1
      "a" "state:mood" = some 2
    ∧ readFieldVal
        (applyOneEffect
          (applyOneEffect c3Chars
            { target := some "a", field := some "state:mood", delta := some (1 / 4),
              set := none }).1
          { target := some "a", field := some "state:mood", delta := some (1 / 4),
            set := none }).1
        "a" "state:mood" = some 1 := by
  have h := effect_set_delta_algebra c3Chars "a" "state:mood"
    { mkChar "a" with states := [("mood", 1 / 2)] } (by decide) (by decide) rfl
  refine ⟨(h.1 2).1, ?_⟩
  have h2 := h.2 (1 / 4) none
  rw [h2]
  have hv : readFieldVal c3Chars "a" "state:mood" = some (1 / 2) := rfl
  rw [hv]
  simp only [Option.getD_some, Option.some.injEq]
  norm_num

theorem driftPairStep_symmetric (chars : Dict Character) (d : ℚ) (aid bid : String)
    (a b : Character) (hne : aid ≠ bid)
    (hA : dGet chars aid = some a) (hB : dGet chars bid = some b) :
    ∃ a2 b2 : Character,
      dGet (driftPairStep chars d aid bid).1 aid = some a2
      ∧ dGet (driftPairStep chars d aid bid).1 bid = some b2
      ∧ dGet a2.relationships bid = some ((dGet a.relationships bid).getD 0 + d)
      ∧ dGet b2.relationships aid = some ((dGet b.relationships aid).getD 0 + d) := by
  have h1 : dGet (dSet chars aid
      { a with relationships := dSet a.relationships bid ((dGet a.relationships bid).getD 0 + d) }) bid
      = some b := by
    rw [dGet_dSet_ne _ _ _ _ hne]
    exact hB
  refine ⟨{ a with relationships := dSet a.relationships bid ((dGet a.relationships bid).getD 0 + d) },
    { b with relationships := dSet b.relationships aid ((dGet b.relationships aid).getD 0 + d) },
    ?_, ?_, ?_, ?_⟩
  · simp only [driftPairStep, hA, hB, h1]
    rw [dGet_dSet_ne _ _ _ _ (Ne.symm hne), dGet_dSet_self]
  · simp only [driftPairStep, hA, hB, h1]
    rw [dGet_dSet_self]
  · rw [dGet_dSet_self]
  · rw [dGet_dSet_self]

/-- C4: the drift lookup gives `+0.1` for `morning_greeting` and
`random_encounter`, `-0.05` for `bad_luck`, and 0 for every other type,
which skips the step entirely (state unchanged, no records); and for a
pair of distinct existing actors both directional relationship scores are
incremented by the same magnitude, both per pair step and for a whole
two-actor event. -/
theorem personality_drift_spec :
    (driftDelta "morning_greeting" = 1 / 10
      ∧ driftDelta "random_encounter" = 1 / 10
      ∧ driftDelta "bad_luck" = -(1 / 20))
    ∧ (∀ t : String, t ≠ "morning_greeting" → t ≠ "random_encounter" → t ≠ "bad_luck" →
        driftDelta t = 0)
    ∧ (∀ (chars : Dict Character) (ev : Event), driftDelta ev.type = 0 →
        apply_personality_drift chars ev = (chars, []))
    ∧ (∀ (chars : Dict Character) (d : ℚ) (aid bid : String) (a b : Character),
        aid ≠ bid → dGet chars aid = some a → dGet chars bid = some b →
        ∃ a2 b2 : Character,
          dGet (driftPairStep chars d aid bid).1 aid = some a2
          ∧ dGet (driftPairStep chars d aid bid).1 bid = some b2
          ∧ dGet a2.relationships bid = some ((dGet a.relationships bid).getD 0 + d)
          ∧ dGet b2.relationships aid = some ((dGet b.relationships aid).getD 0 + d))
    ∧ (∀ (chars : Dict Character) (ev : Event) (aid bid : String) (a b : Character),
        ev.actors = [aid, bid] → aid ≠ bid →
        dGet chars aid = some a → dGet chars bid = some b →
        driftDelta ev.type ≠ 0 →
        ∃ a2 b2 : Character,
          dGet (apply_personality_drift chars ev).1 aid = some a2
          ∧ dGet (apply_personality_drift chars ev).1 bid = some b2
          ∧ dGet a2.relationships bid
              = some ((dGet a.relationships bid).getD 0 + driftDelta ev.type)
          ∧ dGet b2.relationships aid
              = some ((dGet b.relationships aid).getD 0 + driftDelta ev.type)) := by
  refine ⟨⟨rfl, rfl, rfl⟩, ?_, ?_, ?_, ?_⟩
  · intro t h1 h2 h3
    simp [driftDelta, h1, h2, h3]
  · intro chars ev h
    by_cases hA : ev.actors.isEmpty <;> simp [apply_personality_drift, hA, h]
  · intro chars d aid bid a b hne hA hB
    exact driftPairStep_symmetric chars d aid bid a b hne hA hB
  · intro chars ev aid bid a b hact hne hA hB hd
    have hres : (apply_personality_drift chars ev).1 = (driftPairStep chars (driftDelta ev.type) aid bid).1 := by
      simp only [apply_personality_drift, hact, List.isEmpty_cons, if_neg hd]
      simp [orderedPairs]
    rw [hres]
    exact driftPairStep_symmetric chars (driftDelta ev.type) aid bid a b hne hA hB

/-- Witness for C4: the concrete `random_encounter` between `a` and `b`
bumps both `relationships` entries from absent (0) to `1/10`. -/
theorem personality_drift_spec_witness :
    ∃ a2 b2 : Character,
      dGet (apply_personality_drift c3Chars c4Event).1 "a" = some a2
      ∧ dGet (apply_personality_drift c3Chars c4Event).1 "b" = some b2
      ∧ dGet a2.relationships "b" = some (1 / 10)
      ∧ dGet b2.relationships "a" = some (1 / 10) := by
  have h := personality_drift_spec.2.2.2.2 c3Chars c4Event "a" "b"
    ({ mkChar "a" with states := [("mood", 1 / 2)] }) (mkChar "b") rfl (by decide) rfl rfl
    (by rw [show driftDelta c4Event.type = 1 / 10 from rfl]; norm_num)
  obtain ⟨a2, b2, h1, h2, h3, h4⟩ := h
  refine ⟨a2, b2, h1, h2, ?_, ?_⟩
  · rw [h3]
    have hv : dGet ({ mkChar "a" with states := [("mood", (1 : ℚ) / 2)] } : Character).relationships "b"
        = none := rfl
    rw [hv]
    simp only [Option.getD_none, Option.some.injEq]
    rw [show driftDelta c4Event.type = 1 / 10 from rfl]
    norm_num
  · rw [h4]
    have hv : dGet (mkChar "b").relationships "a" = none := rfl
    rw [hv]
    simp only [Option.getD_none, Option.some.injEq]
    rw [show driftDelta c4Event.type = 1 / 10 from rfl]
    norm_num


/-- C9 (code bug): the recovery guarantee fails for truthy non-string
content.  When the endpoint answers with, say, the JSON number 42 under
`content`, `_strip_think` passes it through unchanged and
`cleaned if cleaned else placeholder` is truthy, so `describe_event`
returns the number itself — not the placeholder narration — and the
`dialogue[:200]` slice in `_record_memories` then raises `TypeError`,
which propagates out of `process_due_events`.  The failure, null and
empty-after-strip cases, and `generate_incident` in all its branches, do
recover with placeholders or plain-text wraps as claimed. -/
theorem describe_event_nonstring_crash :
    describe_event (.success (.jnum 42)) = .jnum 42
    ∧ describe_event (.success (.jnum 42)) ≠ .jstr describePlaceholder
    ∧ pySlice200 (describe_event (.success (.jnum 42))) = .error "TypeError"
    ∧ describe_event .failure = .jstr describePlaceholder
    ∧ describe_event (.success .jnull) = .jstr describePlaceholder
    ∧ describe_event (.success (.jstr "")) = .jstr describePlaceholder
    ∧ describe_event (.success (.jstr " <think>plan</think> ")) = .jstr describePlaceholder
    ∧ generate_incident (fun _ : String => (none : Option Nat)) .failure
        = .wrapped "incident" (.jstr incidentPlaceholderText)
    ∧ generate_incident (fun _ : String => (none : Option Nat)) (.success (.jstr "<think>x</think>oops"))
        = .wrapped "incident" (.jstr "oops")
    ∧ generate_incident (fun _ : String => (none : Option Nat)) (.success (.jnum 42))
        = .wrapped "incident" (.jnum 42) := by
  refine ⟨rfl, ?_, rfl, rfl, rfl, rfl, rfl, rfl, rfl, rfl⟩
  intro h
  rw [show describe_event (.success (.jnum 42)) = .jnum 42 from rfl] at h
  exact JVal.noConfusion h

/-- C6 (code bug): `summarize_memories` on an existing character with at
least one resolvable memory always raises `NameError` — state.py line 147
calls `str(uuid.uuid4())` but state.py never imports `uuid` — instead of
creating the summary memory the docstring and spec describe; the two
null-returning paths (unknown character, no memories) behave as
specified. -/
theorem summarize_memories_uuid_crash :
    c6Store.summarize_memories "a recap" "c1" 20
      = .error "NameError: name uuid is not defined"
    ∧ c6Store.summarize_memories "a recap" "c2" 20 = .ok (c6Store, none)
    ∧ c6Store.summarize_memories "a recap" "nobody" 20 = .ok (c6Store, none) := by
  refine ⟨rfl, rfl, rfl⟩

theorem dVal_eq_of_mem {α : Type} {m : Dict α} (hnd : (dKeys m).Nodup) {k : String}
    {v1 v2 : α} (h1 : (k, v1) ∈ m) (h2 : (k, v2) ∈ m) : v1 = v2 := by
  have e1 := mem_dGet hnd h1
  have e2 := mem_dGet hnd h2
  rw [e1] at e2
  injection e2

theorem pop_due_queue_eq (e : FateEngine) (t : Int) :
    (e.pop_due_events t).1.event_queue
      = e.event_queue.filter (fun p => !(eventDue t p.2)) := rfl

theorem pop_due_list_eq (e : FateEngine) (t : Int) :
    (e.pop_due_events t).2
      = (e.event_queue.filter (fun p => eventDue t p.2)).map
          (fun p => { p.2 with status := "ready" }) := rfl

theorem eventDue_iff (t : Int) (ev : Event) :
    eventDue t ev = true ↔ ev.scheduled_for ≤ t ∧ ev.status = "scheduled" := by
  simp [eventDue]

theorem pop_due_mem (e : FateEngine) (hwf : e.QueueWF) (t : Int) (ev : Event) :
    ev ∈ (e.pop_due_events t).2 ↔
      ∃ ev0 : Event, (ev0.id, ev0) ∈ e.event_queue ∧ ev0.scheduled_for ≤ t
        ∧ ev0.status = "scheduled" ∧ ev = { ev0 with status := "ready" } := by
  rw [pop_due_list_eq]
  rw [List.mem_map]
  constructor
  · rintro ⟨p, hp, rfl⟩
    have hp2 := List.mem_filter.mp hp
    have hdue := (eventDue_iff t p.2).mp hp2.2
    refine ⟨p.2, ?_, hdue.1, hdue.2, rfl⟩
    have hk := hwf.1 p hp2.1
    have : (p.2.id, p.2) = p := by
      rw [← hk]
    rw [this]
    exact hp2.1
  · rintro ⟨ev0, hmem, hsched, hstat, rfl⟩
    refine ⟨(ev0.id, ev0), List.mem_filter.mpr ⟨hmem, ?_⟩, rfl⟩
    exact (eventDue_iff t ev0).mpr ⟨hsched, hstat⟩

theorem pop_due_removed (e : FateEngine) (hwf : e.QueueWF) (t : Int) (ev : Event)
    (h : ev ∈ (e.pop_due_events t).2) :
    dGet (e.pop_due_events t).1.event_queue ev.id = none := by
  obtain ⟨ev0, hmem, hsched, hstat, rfl⟩ := (pop_due_mem e hwf t ev).mp h
  rw [pop_due_queue_eq, dGet_eq_none_iff]
  intro hk
  obtain ⟨p, hp, hpk⟩ := List.mem_map.mp hk
  have hp2 := List.mem_filter.mp hp
  have hval : p.2 = ev0 := by
    have h1 : (p.1, p.2) ∈ e.event_queue := hp2.1
    have h2 : (p.1, ev0) ∈ e.event_queue := by
      have : p.1 = ev0.id := hpk
      rw [this]
      exact hmem
    exact dVal_eq_of_mem hwf.2 h1 h2
  have hduep : eventDue t p.2 = true := by
    rw [hval]
    exact (eventDue_iff t ev0).mpr ⟨hsched, hstat⟩
  rw [hduep] at hp2
  simp at hp2

theorem QueueWF_pop (e : FateEngine) (hwf : e.QueueWF) (t : Int) :
    (e.pop_due_events t).1.QueueWF := by
  constructor
  · intro p hp
    rw [pop_due_queue_eq] at hp
    exact hwf.1 p (List.mem_filter.mp hp).1
  · show (dKeys (e.pop_due_events t).1.event_queue).Nodup
    rw [pop_due_queue_eq]
    exact ((List.filter_sublist _).map Prod.fst).nodup hwf.2

theorem popMany_id_mem (e : FateEngine) (hwf : e.QueueWF) (ticks : List Int) (ev : Event)
    (h : ev ∈ e.popMany ticks) : ev.id ∈ dKeys e.event_queue := by
  induction ticks generalizing e with
  | nil => simp [FateEngine.popMany] at h
  | cons t rest ih =>
    simp only [FateEngine.popMany] at h
    rcases List.mem_append.mp h with h1 | h1
    · obtain ⟨ev0, hmem, _, _, rfl⟩ := (pop_due_mem e hwf t ev).mp h1
      exact List.mem_map.mpr ⟨(ev0.id, ev0), hmem, rfl⟩
    · have h2 := ih _ (QueueWF_pop e hwf t) h1
      rw [pop_due_queue_eq] at h2
      exact ((List.filter_sublist _).map Prod.fst).subset h2

theorem popMany_nodup (e : FateEngine) (hwf : e.QueueWF) (ticks : List Int) :
    ((e.popMany ticks).map Event.id).Nodup := by
  induction ticks generalizing e with
  | nil => simp [FateEngine.popMany]
  | cons t rest ih =>
    simp only [FateEngine.popMany]
    rw [List.map_append]
    have hmapeq : ((e.pop_due_events t).2).map Event.id
        = dKeys (e.event_queue.filter (fun p => eventDue t p.2)) := by
      rw [pop_due_list_eq, List.map_map]
      apply List.map_congr_left
      intro p hp
      exact (hwf.1 p (List.mem_filter.mp hp).1).symm
    apply List.Nodup.append
    · rw [hmapeq]
      exact ((List.filter_sublist _).map Prod.fst).nodup hwf.2
    · exact ih _ (QueueWF_pop e hwf t)
    · intro x hx1 hx2
      obtain ⟨ev2, hev2, hid2⟩ := List.mem_map.mp hx2
      have hmem2 : x ∈ dKeys (e.pop_due_events t).1.event_queue := by
        rw [← hid2]
        exact popMany_id_mem _ (QueueWF_pop e hwf t) rest ev2 hev2
      rw [hmapeq] at hx1
      obtain ⟨p, hp, hpk⟩ := List.mem_map.mp hx1
      rw [pop_due_queue_eq] at hmem2
      obtain ⟨q, hq, hqk⟩ := List.mem_map.mp hmem2
      have hpq : q.2 = p.2 := by
        have h1 : (q.1, q.2) ∈ e.event_queue := (List.mem_filter.mp hq).1
        have h2 : (q.1, p.2) ∈ e.event_queue := by
          have : q.1 = p.1 := by rw [hqk, hpk]
          rw [this]
          exact (List.mem_filter.mp hp).1
        exact dVal_eq_of_mem hwf.2 h1 h2
      have hd1 : eventDue t p.2 = true := (List.mem_filter.mp hp).2
      have hd2 : (!(eventDue t q.2)) = true := (List.mem_filter.mp hq).2
      rw [hpq, hd1] at hd2
      simp at hd2

/-- C2: `pop_due_events(t)` returns exactly the queued events with
`scheduled_for ≤ t` and status `"scheduled"` at call time, each returned
as transitioned to `"ready"` and removed from the due-queue; consequently
it never returns an event that was not `"scheduled"`, and across repeated
calls with non-decreasing ticks no event ID is ever returned twice. -/
theorem pop_due_events_spec (e : FateEngine) (hwf : e.QueueWF) (ticks : List Int)
    (hmono : List.Chain' (fun a b => a ≤ b) ticks) :
    (∀ (t : Int) (ev : Event),
        ev ∈ (e.pop_due_events t).2 ↔
          ∃ ev0 : Event, (ev0.id, ev0) ∈ e.event_queue ∧ ev0.scheduled_for ≤ t
            ∧ ev0.status = "scheduled" ∧ ev = { ev0 with status := "ready" })
    ∧ (∀ (t : Int) (ev : Event), ev ∈ (e.pop_due_events t).2 →
        ev.status = "ready" ∧ dGet (e.pop_due_events t).1.event_queue ev.id = none)
    ∧ ((e.popMany ticks).map Event.id).Nodup := by
  refine ⟨fun t ev => pop_due_mem e hwf t ev, ?_, popMany_nodup e hwf ticks⟩
  intro t ev h
  have hrem := pop_due_removed e hwf t ev h
  obtain ⟨ev0, _, _, _, rfl⟩ := (pop_due_mem e hwf t ev).mp h
  exact ⟨rfl, hrem⟩

/-- Witness for C2 on the concrete two-event queue: at tick 0 event `e1`
is returned ready and removed, and popping at ticks 0 then 5 never
repeats an event ID. -/
theorem pop_due_events_spec_witness :
    ((c2Engine.popMany [0, 5]).map Event.id).Nodup
    ∧ ({ c2Event "e1" 0 with status := "ready" }) ∈ (c2Engine.pop_due_events 0).2
    ∧ dGet (c2Engine.pop_due_events 0).1.event_queue "e1" = none := by
  have hwf : c2Engine.QueueWF := by
    constructor
    · decide
    · decide
  have hch : List.Chain' (fun a b : Int => a ≤ b) [0, 5] := by
    simp [List.chain'_cons]
  have h := pop_due_events_spec c2Engine hwf [0, 5] hch
  have hmem : ({ c2Event "e1" 0 with status := "ready" }) ∈ (c2Engine.pop_due_events 0).2 :=
    (h.1 0 _).mpr ⟨c2Event "e1" 0, by decide, by decide, rfl, rfl⟩
  exact ⟨h.2.2, hmem, (h.2.1 0 _ hmem).2⟩

theorem dGet_isSome_iff {α : Type} (m : Dict α) (k : String) :
    (dGet m k).isSome = true ↔ k ∈ dKeys m := by
  rw [Option.isSome_iff_ne_none, Ne, dGet_eq_none_iff, not_not]

theorem add_memory_limit (s : WorldStore) (m : Memory) :
    (s.add_memory m).memory_limit = s.memory_limit := by
  cases hch : dGet s.world.characters m.owner_id with
  | none => simp only [WorldStore.add_memory, hch]
  | some ch =>
    simp only [WorldStore.add_memory, hch]
    split <;> rfl

theorem sliceLast_eq_drop {α : Type} (l : List α) (n : Nat) (h : n ≠ 0) :
    sliceLast l n = l.drop (l.length - n) := by
  rw [sliceLast, if_neg h]

theorem add_memory_step (s : WorldStore) (m : Memory) (ch : Character)
    (hcap : 0 < s.memory_limit)
    (hinv : StoreInv s)
    (hfresh : dGet s.world.memories m.id = none)
    (hch : dGet s.world.characters m.owner_id = some ch) :
    StoreInv (s.add_memory m) := by
  obtain ⟨hmnd, hcnd, hchars, horph, hdisj⟩ := hinv
  have hchmem : (m.owner_id, ch) ∈ s.world.characters := dGet_mem hch
  obtain ⟨hlen, hndids, href⟩ := hchars (m.owner_id, ch) hchmem
  have hfresh2 : m.id ∉ dKeys s.world.memories := (dGet_eq_none_iff _ _).mp hfresh
  have hmnotin : ∀ p ∈ s.world.characters, m.id ∉ p.2.memory_ids := by
    intro p hp hmemid
    exact hfresh2 ((dGet_isSome_iff _ _).mp ((hchars p hp).2.2 m.id hmemid))
  have hmnd1 : (dKeys (dSet s.world.memories m.id m)).Nodup := dKeys_nodup_dSet hmnd _ _
  by_cases hov : (ch.memory_ids ++ [m.id]).length > s.memory_limit
  · -- eviction branch: the list was exactly at the cap
    have hlen2 : ch.memory_ids.length = s.memory_limit := by
      have hlen3 : ch.memory_ids.length ≤ s.memory_limit := hlen
      simp only [List.length_append, List.length_singleton] at hov
      omega
    obtain ⟨hd, tl, hold⟩ : ∃ hd tl, ch.memory_ids = hd :: tl := by
      cases hh : ch.memory_ids with
      | nil =>
        rw [hh] at hlen2
        simp at hlen2
        omega
      | cons a l => exact ⟨a, l, rfl⟩
    have htl : tl.length + 1 = s.memory_limit := by
      rw [hold] at hlen2
      simpa using hlen2
    have hlength : ((hd :: tl) ++ [m.id]).length - s.memory_limit = 1 := by
      simp only [List.length_append, List.length_cons, List.length_nil, List.length_singleton]
      omega
    have hdrop : (ch.memory_ids ++ [m.id]).take ((ch.memory_ids ++ [m.id]).length - s.memory_limit)
        = [hd] := by
      rw [hold, hlength]
      rfl
    have hkeep : sliceLast (ch.memory_ids ++ [m.id]) s.memory_limit = tl ++ [m.id] := by
      rw [sliceLast_eq_drop _ _ (by omega), hold, hlength]
      rfl
    have hs2 : s.add_memory m = { s with
        world := { s.world with
          memories := dPop (dSet s.world.memories m.id m) hd
          characters := dSet s.world.characters m.owner_id
            { ch with memory_ids := tl ++ [m.id] } }
        memory_event_count := dSet s.memory_event_count m.owner_id
          ((dGet s.memory_event_count m.owner_id).getD 0 + 1) } := by
      simp only [WorldStore.add_memory, hch]
      rw [if_pos hov, hdrop, hkeep]
      simp [List.foldl_cons, List.foldl_nil]
    rw [hs2]
    have hhd_mem : hd ∈ ch.memory_ids := by
      rw [hold]
      exact List.mem_cons_self _ _
    have hhd_ne_mid : hd ≠ m.id := by
      intro he
      exact hfresh2 (he ▸ (dGet_isSome_iff _ _).mp (href hd hhd_mem))
    have hhd_notin_tl : hd ∉ tl := by
      rw [hold] at hndids
      exact (List.nodup_cons.mp hndids).1
    have htl_nodup : tl.Nodup := by
      rw [hold] at hndids
      exact (List.nodup_cons.mp hndids).2
    have hmid_notin_tl : m.id ∉ tl := by
      intro he
      exact hmnotin _ hchmem (by rw [hold]; exact List.mem_cons_of_mem _ he)
    have hmems2_get : ∀ mid : String, mid ≠ hd → mid ≠ m.id →
        dGet (dPop (dSet s.world.memories m.id m) hd) mid = dGet s.world.memories mid := by
      intro mid h1 h2
      rw [dGet_dPop_ne _ _ _ (Ne.symm h1), dGet_dSet_ne _ _ _ _ (Ne.symm h2)]
    refine ⟨?_, ?_, ?_, ?_, ?_⟩
    · exact dKeys_nodup_dPop hmnd1 hd
    · exact dKeys_nodup_dSet hcnd _ _
    · intro p hp
      rcases (mem_dSet hcnd _ _ p).mp hp with rfl | ⟨hpold, hpne⟩
      · refine ⟨?_, ?_, ?_⟩
        · show (tl ++ [m.id]).length ≤ s.memory_limit
          simp only [List.length_append, List.length_cons, List.length_nil,
            List.length_singleton]
          omega
        · show (tl ++ [m.id]).Nodup
          simp [List.nodup_append, htl_nodup, hmid_notin_tl]
        · intro mid hmid
          rcases List.mem_append.mp hmid with h1 | h1
          · have hne1 : mid ≠ hd := fun he => hhd_notin_tl (he ▸ h1)
            have hne2 : mid ≠ m.id := fun he => hmid_notin_tl (he ▸ h1)
            show (dGet (dPop (dSet s.world.memories m.id m) hd) mid).isSome = true
            rw [hmems2_get mid hne1 hne2]
            exact href mid (by rw [hold]; exact List.mem_cons_of_mem _ h1)
          · have h2 : mid = m.id := by simpa using h1
            show (dGet (dPop (dSet s.world.memories m.id m) hd) mid).isSome = true
            rw [h2, dGet_dPop_ne _ _ _ hhd_ne_mid, dGet_dSet_self]
            rfl
      · obtain ⟨hl, hnd2, hrefs2⟩ := hchars p hpold
        refine ⟨hl, hnd2, ?_⟩
        intro mid hmid
        have hne2 : mid ≠ m.id := fun he => hmnotin p hpold (he ▸ hmid)
        have hne1 : mid ≠ hd := by
          intro he
          subst he
          exact hpne (hdisj p hpold (m.owner_id, ch) hchmem mid hmid hhd_mem)
        show (dGet (dPop (dSet s.world.memories m.id m) hd) mid).isSome = true
        rw [hmems2_get mid hne1 hne2]
        exact hrefs2 mid hmid
    · intro q hq
      obtain ⟨hq2, hqne_hd⟩ := (mem_dPop hmnd1 hd q).mp hq
      rcases (mem_dSet hmnd m.id m q).mp hq2 with rfl | ⟨hqold, hqne_mid⟩
      · refine ⟨(m.owner_id, { ch with memory_ids := tl ++ [m.id] }),
          (mem_dSet hcnd _ _ _).mpr (Or.inl rfl), ?_⟩
        simp
      · obtain ⟨p0, hp0, hqin⟩ := horph q hqold
        by_cases hp0o : p0.1 = m.owner_id
        · have hp0ch : p0.2 = ch := by
            have h1 := mem_dGet hcnd hp0
            rw [hp0o, hch] at h1
            injection h1 with h2
            exact h2.symm
          refine ⟨(m.owner_id, { ch with memory_ids := tl ++ [m.id] }),
            (mem_dSet hcnd _ _ _).mpr (Or.inl rfl), ?_⟩
          have hq_in_ch : q.1 ∈ ch.memory_ids := hp0ch ▸ hqin
          rw [hold] at hq_in_ch
          rcases List.mem_cons.mp hq_in_ch with h1 | h1
          · exact absurd h1 hqne_hd
          · exact List.mem_append.mpr (Or.inl h1)
        · exact ⟨p0, (mem_dSet hcnd _ _ _).mpr (Or.inr ⟨hp0, hp0o⟩), hqin⟩
    · intro p hp p2 hp2 mid hmid1 hmid2
      rcases (mem_dSet hcnd _ _ p).mp hp with rfl | ⟨hpold, hpne⟩ <;>
        rcases (mem_dSet hcnd _ _ p2).mp hp2 with rfl | ⟨hp2old, hp2ne⟩
      · rfl
      · exfalso
        rcases List.mem_append.mp hmid1 with h1 | h1
        · exact hp2ne (hdisj p2 hp2old (m.owner_id, ch) hchmem mid hmid2
            (by rw [hold]; exact List.mem_cons_of_mem _ h1))
        · have h2 : mid = m.id := by simpa using h1
          exact hmnotin p2 hp2old (h2 ▸ hmid2)
      · exfalso
        rcases List.mem_append.mp hmid2 with h1 | h1
        · exact hpne (hdisj p hpold (m.owner_id, ch) hchmem mid hmid1
            (by rw [hold]; exact List.mem_cons_of_mem _ h1))
        · have h2 : mid = m.id := by simpa using h1
          exact hmnotin p hpold (h2 ▸ hmid1)
      · exact hdisj p hpold p2 hp2old mid hmid1 hmid2
  · -- no eviction: the appended list stays within the cap
    have hs2 : s.add_memory m = { s with
        world := { s.world with
          memories := dSet s.world.memories m.id m
          characters := dSet s.world.characters m.owner_id
            { ch with memory_ids := ch.memory_ids ++ [m.id] } }
        memory_event_count := dSet s.memory_event_count m.owner_id
          ((dGet s.memory_event_count m.owner_id).getD 0 + 1) } := by
      simp only [WorldStore.add_memory, hch]
      rw [if_neg hov]
    rw [hs2]
    have hmid_notin : m.id ∉ ch.memory_ids := hmnotin _ hchmem
    refine ⟨hmnd1, dKeys_nodup_dSet hcnd _ _, ?_, ?_, ?_⟩
    · intro p hp
      rcases (mem_dSet hcnd _ _ p).mp hp with rfl | ⟨hpold, hpne⟩
      · refine ⟨?_, ?_, ?_⟩
        · show (ch.memory_ids ++ [m.id]).length ≤ s.memory_limit
          omega
        · show (ch.memory_ids ++ [m.id]).Nodup
          simp [List.nodup_append, hndids, hmid_notin]
        · intro mid hmid
          show (dGet (dSet s.world.memories m.id m) mid).isSome = true
          by_cases he : mid = m.id
          · subst he
            rw [dGet_dSet_self]
            rfl
          · rw [dGet_dSet_ne _ _ _ _ (Ne.symm he)]
            rcases List.mem_append.mp hmid with h1 | h1
            · exact href mid h1
            · exact absurd (by simpa using h1) he
      · obtain ⟨hl, hnd2, hrefs2⟩ := hchars p hpold
        refine ⟨hl, hnd2, ?_⟩
        intro mid hmid
        show (dGet (dSet s.world.memories m.id m) mid).isSome = true
        by_cases he : mid = m.id
        · subst he
          rw [dGet_dSet_self]
          rfl
        · rw [dGet_dSet_ne _ _ _ _ (Ne.symm he)]
          exact hrefs2 mid hmid
    · intro q hq
      rcases (mem_dSet hmnd m.id m q).mp hq with rfl | ⟨hqold, hqne_mid⟩
      · refine ⟨(m.owner_id, { ch with memory_ids := ch.memory_ids ++ [m.id] }),
          (mem_dSet hcnd _ _ _).mpr (Or.inl rfl), ?_⟩
        simp
      · obtain ⟨p0, hp0, hqin⟩ := horph q hqold
        by_cases hp0o : p0.1 = m.owner_id
        · have hp0ch : p0.2 = ch := by
            have h1 := mem_dGet hcnd hp0
            rw [hp0o, hch] at h1
            injection h1 with h2
            exact h2.symm
          refine ⟨(m.owner_id, { ch with memory_ids := ch.memory_ids ++ [m.id] }),
            (mem_dSet hcnd _ _ _).mpr (Or.inl rfl), ?_⟩
          exact List.mem_append.mpr (Or.inl (hp0ch ▸ hqin))
        · exact ⟨p0, (mem_dSet hcnd _ _ _).mpr (Or.inr ⟨hp0, hp0o⟩), hqin⟩
    · intro p hp p2 hp2 mid hmid1 hmid2
      rcases (mem_dSet hcnd _ _ p).mp hp with rfl | ⟨hpold, hpne⟩ <;>
        rcases (mem_dSet hcnd _ _ p2).mp hp2 with rfl | ⟨hp2old, hp2ne⟩
      · rfl
      · exfalso
        rcases List.mem_append.mp hmid1 with h1 | h1
        · exact hp2ne (hdisj p2 hp2old (m.owner_id, ch) hchmem mid hmid2 h1)
        · have h2 : mid = m.id := by simpa using h1
          exact hmnotin p2 hp2old (h2 ▸ hmid2)
      · exfalso
        rcases List.mem_append.mp hmid2 with h1 | h1
        · exact hpne (hdisj p hpold (m.owner_id, ch) hchmem mid hmid1 h1)
        · have h2 : mid = m.id := by simpa using h1
          exact hmnotin p hpold (h2 ▸ hmid1)
      · exact hdisj p hpold p2 hp2old mid hmid1 hmid2

theorem addSeq_inv (ms : List Memory) :
    ∀ s : WorldStore, 0 < s.memory_limit → StoreInv s → addSeqOK s ms = true →
      StoreInv (List.foldl WorldStore.add_memory s ms) := by
  induction ms with
  | nil =>
    intro s _ hinv _
    simpa using hinv
  | cons m rest ih =>
    intro s hcap hinv hok
    simp only [addSeqOK, Bool.and_eq_true] at hok
    obtain ⟨⟨hfb, hob⟩, hrest⟩ := hok
    have hfresh : dGet s.world.memories m.id = none := Option.isNone_iff_eq_none.mp hfb
    obtain ⟨ch, hch⟩ := Option.isSome_iff_exists.mp hob
    have hstep := add_memory_step s m ch hcap hinv hfresh hch
    have hcap2 : 0 < (s.add_memory m).memory_limit := by
      rw [add_memory_limit]
      exact hcap
    rw [List.foldl_cons]
    exact ih (s.add_memory m) hcap2 hstep hrest

theorem add_memory_fifo (s : WorldStore) (hcap : 0 < s.memory_limit) (hinv : StoreInv s)
    (m : Memory) (ch : Character)
    (hfresh : dGet s.world.memories m.id = none)
    (hch : dGet s.world.characters m.owner_id = some ch) :
    dGet (s.add_memory m).world.characters m.owner_id
      = some { ch with memory_ids :=
          (ch.memory_ids ++ [m.id]).drop (ch.memory_ids.length + 1 - s.memory_limit) }
    ∧ ∀ mid ∈ (ch.memory_ids ++ [m.id]).take (ch.memory_ids.length + 1 - s.memory_limit),
        dGet (s.add_memory m).world.memories mid = none := by
  obtain ⟨hmnd, hcnd, hchars, horph, hdisj⟩ := hinv
  have hchmem : (m.owner_id, ch) ∈ s.world.characters := dGet_mem hch
  obtain ⟨hlen, hndids, href⟩ := hchars (m.owner_id, ch) hchmem
  have hmnd1 : (dKeys (dSet s.world.memories m.id m)).Nodup := dKeys_nodup_dSet hmnd _ _
  have hlen3 : ch.memory_ids.length ≤ s.memory_limit := hlen
  by_cases hov : (ch.memory_ids ++ [m.id]).length > s.memory_limit
  · have hlen2 : ch.memory_ids.length = s.memory_limit := by
      simp only [List.length_append, List.length_singleton] at hov
      omega
    obtain ⟨hd, tl, hold⟩ : ∃ hd tl, ch.memory_ids = hd :: tl := by
      cases hh : ch.memory_ids with
      | nil =>
        rw [hh] at hlen2
        simp at hlen2
        omega
      | cons a l => exact ⟨a, l, rfl⟩
    have htl : tl.length + 1 = s.memory_limit := by
      rw [hold] at hlen2
      simpa using hlen2
    have hlength : ((hd :: tl) ++ [m.id]).length - s.memory_limit = 1 := by
      simp only [List.length_append, List.length_cons, List.length_nil, List.length_singleton]
      omega
    have hdrop : (ch.memory_ids ++ [m.id]).take ((ch.memory_ids ++ [m.id]).length - s.memory_limit)
        = [hd] := by
      rw [hold, hlength]
      rfl
    have hkeep : sliceLast (ch.memory_ids ++ [m.id]) s.memory_limit = tl ++ [m.id] := by
      rw [sliceLast_eq_drop _ _ (by omega), hold, hlength]
      rfl
    have hs2 : s.add_memory m = { s with
        world := { s.world with
          memories := dPop (dSet s.world.memories m.id m) hd
          characters := dSet s.world.characters m.owner_id
            { ch with memory_ids := tl ++ [m.id] } }
        memory_event_count := dSet s.memory_event_count m.owner_id
          ((dGet s.memory_event_count m.owner_id).getD 0 + 1) } := by
      simp only [WorldStore.add_memory, hch]
      rw [if_pos hov, hdrop, hkeep]
      simp [List.foldl_cons, List.foldl_nil]
    have hkeep2 : (ch.memory_ids ++ [m.id]).drop (ch.memory_ids.length + 1 - s.memory_limit)
        = tl ++ [m.id] := by
      rw [hold]
      rw [show (hd :: tl).length + 1 - s.memory_limit = 1 by
        simp only [List.length_cons]; omega]
      rfl
    have hdrop2 : (ch.memory_ids ++ [m.id]).take (ch.memory_ids.length + 1 - s.memory_limit)
        = [hd] := by
      rw [hold]
      rw [show (hd :: tl).length + 1 - s.memory_limit = 1 by
        simp only [List.length_cons]; omega]
      rfl
    rw [hs2, hkeep2, hdrop2]
    constructor
    · show dGet (dSet s.world.characters m.owner_id { ch with memory_ids := tl ++ [m.id] })
          m.owner_id = _
      rw [dGet_dSet_self]
    · intro mid hmid
      have h2 : mid = hd := by simpa using hmid
      show dGet (dPop (dSet s.world.memories m.id m) hd) mid = none
      rw [h2]
      exact dGet_dPop_self hmnd1 hd
  · have hz : ch.memory_ids.length + 1 - s.memory_limit = 0 := by
      simp only [List.length_append, List.length_singleton] at hov
      omega
    have hs2 : s.add_memory m = { s with
        world := { s.world with
          memories := dSet s.world.memories m.id m
          characters := dSet s.world.characters m.owner_id
            { ch with memory_ids := ch.memory_ids ++ [m.id] } }
        memory_event_count := dSet s.memory_event_count m.owner_id
          ((dGet s.memory_event_count m.owner_id).getD 0 + 1) } := by
      simp only [WorldStore.add_memory, hch]
      rw [if_neg hov]
    rw [hs2, hz]
    constructor
    · show dGet (dSet s.world.characters m.owner_id
          { ch with memory_ids := ch.memory_ids ++ [m.id] }) m.owner_id = _
      rw [dGet_dSet_self, List.drop_zero]
    · intro mid hmid
      rw [List.take_zero] at hmid
      simp at hmid

/-- C1: starting from a store satisfying the invariant, after any sequence
of `add_memory` calls in which every memory has a fresh (hence distinct)
ID and an owner referencing an existing character, every character's
memory-ID list has length at most the configured cap, the memory map
contains exactly the IDs referenced by some character (no orphans, no
duplicates), and each call appends the new ID and evicts exactly the
oldest excess IDs from both the owner's list and the memory map (strict
FIFO, no salience weighting). -/
theorem add_memory_spec (s : WorldStore) (hcap : 0 < s.memory_limit) (hinv : StoreInv s) :
    (∀ ms : List Memory, addSeqOK s ms = true →
        StoreInv (List.foldl WorldStore.add_memory s ms))
    ∧ (∀ (m : Memory) (ch : Character),
        dGet s.world.memories m.id = none →
        dGet s.world.characters m.owner_id = some ch →
        dGet (s.add_memory m).world.characters m.owner_id
          = some { ch with memory_ids :=
              (ch.memory_ids ++ [m.id]).drop (ch.memory_ids.length + 1 - s.memory_limit) }
        ∧ ∀ mid ∈ (ch.memory_ids ++ [m.id]).take (ch.memory_ids.length + 1 - s.memory_limit),
            dGet (s.add_memory m).world.memories mid = none) :=
  ⟨fun ms hok => addSeq_inv ms s hcap hinv hok,
   fun m ch hfresh hch => add_memory_fifo s hcap hinv m ch hfresh hch⟩

/-- Witness for C1 on the concrete cap-2 store: adding `m1, m2, m3`
preserves the invariant, and the third add evicts exactly the oldest ID
`m1` from the memory map. -/
theorem add_memory_spec_witness :
    StoreInv (List.foldl WorldStore.add_memory c1Store [c1Mem "m1", c1Mem "m2", c1Mem "m3"])
    ∧ dGet ((List.foldl WorldStore.add_memory c1Store
        [c1Mem "m1", c1Mem "m2"]).add_memory (c1Mem "m3")).world.memories "m1" = none := by
  refine ⟨(add_memory_spec c1Store (by decide) (by decide)).1 _ (by decide), ?_⟩
  have h := (add_memory_spec (List.foldl WorldStore.add_memory c1Store [c1Mem "m1", c1Mem "m2"])
      (by decide) (by decide)).2 (c1Mem "m3") _ (by decide) rfl
  exact h.2 "m1" (by decide)

theorem step_timeline_completes_on_cap (st : SceneStore) (o : StepOracle) (tid : String)
    (t : Timeline) (s1id s2id : String) (s2 : Scene)
    (htid : tid ≠ "") (ht : dGet st.timelines tid = some t) (hid : t.id = tid)
    (hstatus : t.status = "active")
    (hscenes : t.scenes = [s1id, s2id]) (hidx : t.current_scene_idx = 1)
    (hmax : t.max_scenes = 2)
    (hs2 : dGet st.scenes s2id = some s2) (hs2done : s2.status = "completed") :
    step_timeline st o (some tid)
      = ({ st with timelines := dSet st.timelines tid { t with status := "completed" } },
         StepResp.completedResp tid) := by
  simp only [step_timeline, if_neg htid, ht]
  rw [if_neg (by rw [hstatus]; decide)]
  rw [if_neg (by rw [hscenes, hidx]; simp)]
  rw [hscenes, hidx]
  simp only [List.getElem?_cons_succ, List.getElem?_cons_zero]
  simp only [SceneStore.get_scene, hs2]
  rw [if_pos hs2done]
  rw [if_neg (by rw [hmax]; simp)]
  rw [hid]

theorem step_timeline_completes_on_turn (st : SceneStore) (o : StepOracle) (tid : String)
    (t : Timeline) (s1id s2id : String) (s2 : Scene) (pid : String) (spk : Character)
    (htid : tid ≠ "") (ht : dGet st.timelines tid = some t) (hid : t.id = tid)
    (hstatus : t.status = "active")
    (hscenes : t.scenes = [s1id, s2id]) (hidx : t.current_scene_idx = 1)
    (hmax : t.max_scenes = 2)
    (hs2 : dGet st.scenes s2id = some s2) (hs2id : s2.id = s2id)
    (hs2act : s2.status = "active")
    (hspk : s2.next_speaker = some pid) (hchar : dGet st.characters pid = some spk)
    (hturns : s2.max_turns ≤ s2.turns.length + 1) :
    dGet (step_timeline st o (some tid)).1.timelines tid
      = some { t with current_scene_idx := 2, status := "completed" }
    ∧ ∀ sid : String, sid ≠ s2id →
        dGet (step_timeline st o (some tid)).1.scenes sid = dGet st.scenes sid := by
  have hadd : ∀ u : String, (s2.add_turn pid u o.ts).status = "completed" := by
    intro u
    unfold Scene.add_turn
    rw [if_pos (by simpa using hturns)]
  have haddid : ∀ u : String, (s2.add_turn pid u o.ts).id = s2.id := by
    intro u
    by_cases h : s2.turns.length + 1 ≥ s2.max_turns <;> simp [Scene.add_turn, h]
  constructor
  · simp only [step_timeline, if_neg htid, ht]
    rw [if_neg (by rw [hstatus]; decide)]
    rw [if_neg (by rw [hscenes, hidx]; simp)]
    rw [hscenes, hidx]
    simp only [List.getElem?_cons_succ, List.getElem?_cons_zero]
    simp only [SceneStore.get_scene, hs2]
    rw [if_neg (by rw [hs2act]; decide)]
    simp only [hspk, hchar, hadd]
    simp only [if_true]
    rw [if_pos (by rw [hscenes, hidx]; simp)]
    rw [hid, dGet_dSet_self, hscenes, hidx]
  · intro sid hsid
    simp only [step_timeline, if_neg htid, ht]
    rw [if_neg (by rw [hstatus]; decide)]
    rw [if_neg (by rw [hscenes, hidx]; simp)]
    rw [hscenes, hidx]
    simp only [List.getElem?_cons_succ, List.getElem?_cons_zero]
    simp only [SceneStore.get_scene, hs2]
    rw [if_neg (by rw [hs2act]; decide)]
    simp only [hspk, hchar, hadd]
    rw [haddid, hs2id]
    exact dGet_dSet_ne _ _ _ _ (Ne.symm hsid)

theorem step_timeline_advances (st : SceneStore) (o : StepOracle) (tid : String)
    (t : Timeline) (s1id : String) (s1 : Scene) (pid : String) (spk : Character)
    (htid : tid ≠ "") (ht : dGet st.timelines tid = some t) (hid : t.id = tid)
    (hstatus : t.status = "active") (hmax : t.max_scenes = 2)
    (hscenes : t.scenes = [s1id]) (hidx : t.current_scene_idx = 0)
    (hs1 : dGet st.scenes s1id = some s1) (hs1done : s1.status = "completed")
    (hp : t.participants[0]? = some pid) (hchar : dGet st.characters pid = some spk)
    (hmt : 2 ≤ o.genMaxTurns.getD 6) :
    dGet (step_timeline st o (some tid)).1.timelines tid
      = some { t with scenes := [s1id, o.newSceneId], current_scene_idx := 1 }
    ∧ (∃ sc2 : Scene,
        dGet (step_timeline st o (some tid)).1.scenes o.newSceneId = some sc2
        ∧ sc2.participants = t.participants ∧ sc2.turns.length = 1 ∧ sc2.status = "active")
    ∧ (step_timeline st o (some tid)).2
        = StepResp.turnResp tid "active" o.newSceneId "active" pid o.utterance 1 := by
  have hmem : o.utterance ∉ List.map SceneTurn.utterance (sliceLast ([] : List SceneTurn) 5) := by
    simp [sliceLast]
  have hlen1 : ¬(([] ++ [({ speaker := pid, utterance := o.utterance, ts := o.ts } : SceneTurn)]).length
      ≥ o.genMaxTurns.getD 6) := by
    simp only [List.nil_append, List.length_singleton, ge_iff_le]
    omega
  have hact : ¬(("active" : String) = "completed") := by decide
  refine ⟨?_, ?_, ?_⟩
  · simp only [step_timeline, if_neg htid, ht]
    rw [if_neg (by rw [hstatus]; decide)]
    rw [if_neg (by rw [hscenes, hidx]; simp)]
    rw [hscenes, hidx]
    simp only [List.getElem?_cons_zero]
    simp only [SceneStore.get_scene, hs1]
    rw [if_pos hs1done]
    rw [if_pos (by rw [hmax]; simp)]
    simp only [SceneStore.add_scene, Scene.next_speaker, List.length_nil, Nat.zero_mod, hp,
      hchar]
    rw [if_neg hmem]
    simp only [Scene.add_turn]
    rw [if_neg hlen1]
    dsimp only
    rw [if_neg hact]
    rw [hid, dGet_dSet_self]
    rfl
  · simp only [step_timeline, if_neg htid, ht]
    rw [if_neg (by rw [hstatus]; decide)]
    rw [if_neg (by rw [hscenes, hidx]; simp)]
    rw [hscenes, hidx]
    simp only [List.getElem?_cons_zero]
    simp only [SceneStore.get_scene, hs1]
    rw [if_pos hs1done]
    rw [if_pos (by rw [hmax]; simp)]
    simp only [SceneStore.add_scene, Scene.next_speaker, List.length_nil, Nat.zero_mod, hp,
      hchar]
    rw [if_neg hmem]
    simp only [Scene.add_turn]
    rw [if_neg hlen1]
    dsimp only
    exact ⟨_, dGet_dSet_self _ _ _, rfl, rfl, rfl⟩
  · simp only [step_timeline, if_neg htid, ht]
    rw [if_neg (by rw [hstatus]; decide)]
    rw [if_neg (by rw [hscenes, hidx]; simp)]
    rw [hscenes, hidx]
    simp only [List.getElem?_cons_zero]
    simp only [SceneStore.get_scene, hs1]
    rw [if_pos hs1done]
    rw [if_pos (by rw [hmax]; simp)]
    simp only [SceneStore.add_scene, Scene.next_speaker, List.length_nil, Nat.zero_mod, hp,
      hchar]
    rw [if_neg hmem]
    simp only [Scene.add_turn]
    rw [if_neg hlen1]
    dsimp only
    rw [if_neg hact]
    rw [hid, hstatus]
    rfl

/-- C5: for a timeline with `max_scenes = 2` holding one initial scene,
stepping when scene 1 is completed appends a newly generated scene 2
(same participants, starting with the turn just run) and advances the
cursor to 1; when scene 2 completes as a result of the turn just added
the timeline becomes `"completed"` with no further scene; and stepping a
timeline whose current scene 2 is already completed at the cap likewise
just marks the timeline `"completed"` without generating a scene. -/
theorem timeline_two_scene_spec :
    (∀ (st : SceneStore) (o : StepOracle) (tid : String) (t : Timeline) (s1id : String)
        (s1 : Scene) (pid : String) (spk : Character),
      tid ≠ "" → dGet st.timelines tid = some t → t.id = tid → t.status = "active" →
      t.max_scenes = 2 → t.scenes = [s1id] → t.current_scene_idx = 0 →
      dGet st.scenes s1id = some s1 → s1.status = "completed" →
      t.participants[0]? = some pid → dGet st.characters pid = some spk →
      2 ≤ o.genMaxTurns.getD 6 →
      dGet (step_timeline st o (some tid)).1.timelines tid
        = some { t with scenes := [s1id, o.newSceneId], current_scene_idx := 1 }
      ∧ (∃ sc2 : Scene,
          dGet (step_timeline st o (some tid)).1.scenes o.newSceneId = some sc2
          ∧ sc2.participants = t.participants ∧ sc2.turns.length = 1 ∧ sc2.status = "active")
      ∧ (step_timeline st o (some tid)).2
          = StepResp.turnResp tid "active" o.newSceneId "active" pid o.utterance 1)
    ∧ (∀ (st : SceneStore) (o : StepOracle) (tid : String) (t : Timeline)
        (s1id s2id : String) (s2 : Scene) (pid : String) (spk : Character),
      tid ≠ "" → dGet st.timelines tid = some t → t.id = tid → t.status = "active" →
      t.scenes = [s1id, s2id] → t.current_scene_idx = 1 → t.max_scenes = 2 →
      dGet st.scenes s2id = some s2 → s2.id = s2id → s2.status = "active" →
      s2.next_speaker = some pid → dGet st.characters pid = some spk →
      s2.max_turns ≤ s2.turns.length + 1 →
      dGet (step_timeline st o (some tid)).1.timelines tid
        = some { t with current_scene_idx := 2, status := "completed" }
      ∧ ∀ sid : String, sid ≠ s2id →
          dGet (step_timeline st o (some tid)).1.scenes sid = dGet st.scenes sid)
    ∧ (∀ (st : SceneStore) (o : StepOracle) (tid : String) (t : Timeline)
        (s1id s2id : String) (s2 : Scene),
      tid ≠ "" → dGet st.timelines tid = some t → t.id = tid → t.status = "active" →
      t.scenes = [s1id, s2id] → t.current_scene_idx = 1 → t.max_scenes = 2 →
      dGet st.scenes s2id = some s2 → s2.status = "completed" →
      step_timeline st o (some tid)
        = ({ st with timelines := dSet st.timelines tid { t with status := "completed" } },
           StepResp.completedResp tid)) :=
  ⟨fun st o tid t s1id s1 pid spk h1 h2 h3 h4 h5 h6 h7 h8 h9 h10 h11 h12 =>
      step_timeline_advances st o tid t s1id s1 pid spk h1 h2 h3 h4 h5 h6 h7 h8 h9 h10 h11 h12,
   fun st o tid t s1id s2id s2 pid spk h1 h2 h3 h4 h5 h6 h7 h8 h9 h10 h11 h12 h13 =>
      step_timeline_completes_on_turn st o tid t s1id s2id s2 pid spk
        h1 h2 h3 h4 h5 h6 h7 h8 h9 h10 h11 h12 h13,
   fun st o tid t s1id s2id s2 h1 h2 h3 h4 h5 h6 h7 h8 h9 =>
      step_timeline_completes_on_cap st o tid t s1id s2id s2 h1 h2 h3 h4 h5 h6 h7 h8 h9⟩

/-- Witness for C5 on the concrete two-scene timeline: stepping past
completed scene 1 yields `[s1, s2]` with cursor 1; the turn completing
scene 2 completes the timeline at cursor 2; stepping with scene 2 already
completed at the cap answers `completed` and only marks the timeline. -/
theorem timeline_two_scene_spec_witness :
    dGet (step_timeline c5Store c5Oracle (some "tl")).1.timelines "tl"
      = some { c5Timeline with scenes := ["s1", "s2"], current_scene_idx := 1 }
    ∧ dGet (step_timeline c5Store2a c5Oracle (some "tl")).1.timelines "tl"
      = some { c5Timeline2 with current_scene_idx := 2, status := "completed" }
    ∧ (step_timeline c5Store2b c5Oracle (some "tl")).2 = StepResp.completedResp "tl" := by
  refine ⟨?_, ?_, ?_⟩
  · exact (timeline_two_scene_spec.1 c5Store c5Oracle "tl" c5Timeline "s1" c5Scene1 "a"
      (mkChar "a") (by decide) rfl rfl rfl rfl rfl rfl rfl rfl rfl rfl (by decide)).1
  · exact (timeline_two_scene_spec.2.1 c5Store2a c5Oracle "tl" c5Timeline2 "s1" "s2" c5Scene2a
      "b" (mkChar "b") (by decide) rfl rfl rfl rfl rfl rfl rfl rfl rfl rfl rfl (by decide)).1
  · rw [timeline_two_scene_spec.2.2 c5Store2b c5Oracle "tl" c5Timeline2 "s1" "s2"
      { c5Scene2a with status := "completed" } (by decide) rfl rfl rfl rfl rfl rfl rfl rfl]
